import Mathlib

/-!
Shallow embedding of the measurement-sequencing core of the CTA SiPM Matrix IV
bench (repository gisilves/CTA_SiPM_Matrix).  The authoritative source is
src/src/cta_matrix_iv.py (classes DataAcquisitionThread and MainWindow); the
older top-level src/cta_matrix_iv.py is only consulted where a claim cites it.

Voltages and currents are embedded as exact rationals (the Python code uses
floats; `np.arange` is embedded by its documented mathematical semantics
length = ceil((stop - start) / step), element i = start + i * step).
Instrument I/O is embedded as an explicit event trace; the `running` global
that a GUI thread may clear concurrently is embedded as a function giving the
value observed at each successive poll of the flag.
-/

namespace CTA

/-! ## np.arange (used in DataAcquisitionThread.run, lines 159-166) -/

/-- Number of elements of `np.arange start stop step`:
`ceil ((stop - start) / step)` clamped to 0 (exact-arithmetic semantics). -/
def arangeLen (start stop step : ℚ) : ℕ :=
  (Int.ceil ((stop - start) / step)).toNat

/-- `np.arange start stop step` with exact rational arithmetic:
`[start, start + step, ...]`, all elements strictly before `stop`
(for positive `step`). -/
def arange (start stop step : ℚ) : List ℚ :=
  (List.range (arangeLen start stop step)).map (fun (i : ℕ) => start + (i : ℚ) * step)

/-! ## Run configuration

Snapshot of the GUI inputs read at the top of `DataAcquisitionThread.run`
(lines 139-152): min/max/step voltage, the fine-scan checkbox and bounds,
the start-voltage check, the compliance limit and skip-on-compliance
checkbox, and the ramp-down checkbox and (integer, `int(...)` at line 104)
ramp-down step. -/
structure RunCfg where
  min_voltage : ℚ
  max_voltage : ℚ
  voltage_step : ℚ
  fine_voltage_scan : Bool
  v_fine_start : ℚ
  v_fine_end : ℚ
  v_fine_step : ℚ
  check_start_voltage : Bool
  check_compliance : Bool
  compliance : ℚ
  ramp_down : Bool
  ramp_down_step : ℤ
deriving DecidableEq

/-- The voltage profile computed in `DataAcquisitionThread.run`, lines 159-166:
three concatenated `np.arange` segments when the fine scan is enabled,
otherwise a single `np.arange min (max + step) step`. -/
def voltagePoints (cfg : RunCfg) : List ℚ :=
  if cfg.fine_voltage_scan then
    arange cfg.min_voltage cfg.v_fine_start cfg.voltage_step ++
    arange cfg.v_fine_start cfg.v_fine_end cfg.v_fine_step ++
    arange cfg.v_fine_end (cfg.max_voltage + cfg.voltage_step) cfg.voltage_step
  else
    arange cfg.min_voltage (cfg.max_voltage + cfg.voltage_step) cfg.voltage_step

/-! ## Instrument commands and the observable event trace

Each `self.k2420.write`/`query` and `self.k707.write` in the source is one
event; `self.queue.put` and the Qt signal emissions are events as well.
`print` calls (stdout only) are not modelled. -/

/-- Commands written to the Keithley 2420 source meter (`self.k2420.write`). -/
inductive SrcCmd
  /-- `:SOUR:VOLT:RANG 60` (constructor, line 62) -/
  | setRange (v : ℚ)
  /-- `:SOUR:VOLT v` (`set_voltage`, line 95, and `do_ramp_down`, line 108) -/
  | setSourVolt (v : ℚ)
  /-- `:SENSE:CURR:PROT vE-6` (line 147) -/
  | setProt (microAmps : ℚ)
  /-- `OUTP ON` (line 157) -/
  | outpOn
  /-- `OUTP OFF` (line 174 and `emergency_stop`, line 720) -/
  | outpOff
deriving DecidableEq

/-- Queries sent to the Keithley 2420 (`self.k2420.query`). -/
inductive SrcQuery
  /-- `MEAS:CURR?` (`measure_current`, line 98) -/
  | measCurr
  /-- `:SENSE:CURRENT:PROTECTION:TRIPPED?` (`is_compliance`, line 101) -/
  | protTripped
  /-- `SOUR:VOLT?` (`do_ramp_down`, line 105) -/
  | sourVolt
deriving DecidableEq

/-- Commands written to the Keithley 707 switch matrix (`self.k707.write`). -/
inductive MatCmd
  /-- `Y2E0CE001X` (`connect_bias`, line 79) -/
  | connectBias
  /-- `Y3E0CF{n+2}X` (`connect_to_sipm`, line 84) -/
  | closeSipm (n : ℕ)
  /-- `Y3E0NF{n+2}X` (`disconnect_from_sipm`, line 88) -/
  | openSipm (n : ℕ)
  /-- `Y2E0RX` (`disconnect_all`, line 92, and `emergency_stop`, line 721) -/
  | resetAll
deriving DecidableEq

/-- The literal command string each `MatCmd` stands for. -/
def MatCmd.toStr : MatCmd → String
  | .connectBias => "Y2E0CE001X"
  | .closeSipm n => "Y3E0CF" ++ toString (n + 2) ++ "X"
  | .openSipm n => "Y3E0NF" ++ toString (n + 2) ++ "X"
  | .resetAll => "Y2E0RX"

/-- One observable event of the acquisition worker. -/
inductive Event
  | srcWrite (c : SrcCmd)
  | srcQuery (q : SrcQuery)
  | matWrite (c : MatCmd)
  /-- `self.queue.put((sipm, voltage, mean_current, rms_current))`, line 129.
  `np.std` returns the square root of `variance`; the variance is recorded
  so the trace stays in exact rational arithmetic. -/
  | samplePut (sipm : ℕ) (voltage mean variance : ℚ)
  /-- `self.current_sipm.emit(sipm)`, line 83 -/
  | emitCurrentSipm (sipm : ℕ)
  /-- `self.all_finished.emit(0)`, line 175 -/
  | emitAllFinished
  /-- `time.sleep secs` -/
  | sleep (secs : ℚ)
deriving DecidableEq

/-- The instrument responses the worker can observe: the current readings
(per channel, per profile step, per repeat), the compliance-tripped answer
(per channel, per profile step) and the set-voltage read-back used by
`do_ramp_down`. -/
structure Env where
  currents : ℕ → ℕ → ℕ → ℚ
  compliance : ℕ → ℕ → Bool
  readSetVoltage : ℚ

/-- Trace projections used by the theorems. -/
def isSample : Event → Bool
  | .samplePut _ _ _ _ => true
  | _ => false

def isSampleFor (c : ℕ) : Event → Bool
  | .samplePut s _ _ _ => s == c
  | _ => false

def sampleCount (c : ℕ) (evs : List Event) : ℕ := evs.countP (isSampleFor c)

def totalSamples (evs : List Event) : ℕ := evs.countP isSample

def isOutpOff : Event → Bool
  | .srcWrite .outpOff => true
  | _ => false

def isResetAll : Event → Bool
  | .matWrite .resetAll => true
  | _ => false

/-- Projection extracting a `current_sipm` signal emission. -/
def emitProj : Event → Option ℕ
  | .emitCurrentSipm n => some n
  | _ => none

/-- The sequence of `current_sipm` signal emissions in a trace: one per
channel, emitted on connecting to it. -/
def currentSipmSeq (evs : List Event) : List ℕ :=
  evs.filterMap emitProj

/-! ## do_ramp_down (lines 103-109)

```
ramp_step = int(self.ramp_down_step.text())
current_voltage = float(self.k2420.query('SOUR:VOLT?').split(',')[0])
while current_voltage > 0:
    current_voltage = max(0, current_voltage - ramp_step)
    self.k2420.write(f'SOUR:VOLT {current_voltage}')
    time.sleep(1)
```

The while loop need not terminate (nothing validates `ramp_step > 0`), so it
is embedded with explicit fuel: `none` means the loop was still running when
the fuel ran out. -/

/-- The voltages commanded by the `do_ramp_down` while loop, starting from
read-back voltage `v`: each iteration writes `max 0 (v - step)`. -/
def rampWritesFuel (step : ℤ) : ℕ → ℚ → Option (List ℚ)
  | 0, v => if 0 < v then none else some []
  | fuel + 1, v =>
    if 0 < v then
      (rampWritesFuel step fuel (max 0 (v - (step : ℚ)))).map
        (fun ws => max 0 (v - (step : ℚ)) :: ws)
    else some []

/-- Event trace of `do_ramp_down`: first the `SOUR:VOLT?` read-back query,
then one `SOUR:VOLT v` write and a 1 s sleep per loop iteration. -/
def doRampDown (step : ℤ) (startV : ℚ) (fuel : ℕ) : Option (List Event) :=
  (rampWritesFuel step fuel startV).map (fun ws =>
    Event.srcQuery .sourVolt ::
      ws.flatMap (fun v => [Event.srcWrite (.setSourVolt v), Event.sleep 1]))

/-! ## perform_measurement (lines 111-137) and run (lines 139-175)

The `running` global is read at two kinds of poll points: after each emitted
sample (line 132) and after each channel (line 170).  Polls are numbered
consecutively; `flag p` is the value of `running` observed at poll `p`
(a concurrent `stop()` makes some suffix of polls read `false`). -/

def n_measurements : ℕ := 6

def stabilization_time : ℚ := 1 / 5

/-- The six successive `measure_current()` readings for channel `sipm` at
profile step `i` (line 120). -/
def readings (env : Env) (sipm i : ℕ) : List ℚ :=
  (List.range n_measurements).map (env.currents sipm i)

/-- `np.mean` of a list of rationals. -/
def qMean (xs : List ℚ) : ℚ := xs.sum / (xs.length : ℚ)

/-- The square of `np.std` (population variance) of a list of rationals. -/
def qVar (xs : List ℚ) : ℚ :=
  ((xs.map (fun x => (x - qMean xs) ^ 2)).sum) / (xs.length : ℚ)

/-- Result of a loop fragment: its events, the next unused poll index, and
whether it exited through an early `return` (a poll observed `false`). -/
structure LoopOut where
  events : List Event
  polls : ℕ
  early : Bool
deriving DecidableEq

/-- The events of one profile step before the compliance branch: the
`set_voltage(voltage)` write, the stabilization sleep, the six current
readings, and (when `check_compliance` is set, by short-circuiting `and`)
the compliance-tripped query. -/
def stepEvents (checkCompliance : Bool) (v : ℚ) : List Event :=
  [Event.srcWrite (.setSourVolt v), Event.sleep stabilization_time] ++
  (List.range n_measurements).map (fun _ => Event.srcQuery .measCurr) ++
  (if checkCompliance then [Event.srcQuery .protTripped] else [])

/-- The `for voltage in voltage_points` loop of `perform_measurement`
(lines 116-133), for channel `sipm`, starting at profile step `i` and poll
index `p`.  On a compliance trip (with `check_compliance`): set 0 V, sleep,
`break` (the loop ends, `early := false`).  Otherwise the sample is pushed
and `running` is polled: `false` means `return` (`early := true`). -/
def measLoop (env : Env) (checkCompliance : Bool) (flag : ℕ → Bool)
    (sipm : ℕ) : ℕ → ℕ → List ℚ → LoopOut
  | _, p, [] => ⟨[], p, false⟩
  | i, p, v :: rest =>
    let pre := stepEvents checkCompliance v
    if checkCompliance && env.compliance sipm i then
      ⟨pre ++ [Event.srcWrite (.setSourVolt 0), Event.sleep stabilization_time],
       p, false⟩
    else
      let sampleEv := Event.samplePut sipm v (qMean (readings env sipm i))
        (qVar (readings env sipm i))
      if flag p then
        let out := measLoop env checkCompliance flag sipm (i + 1) (p + 1) rest
        ⟨pre ++ [sampleEv] ++ out.events, out.polls, out.early⟩
      else ⟨pre ++ [sampleEv], p + 1, true⟩

/-- `perform_measurement(sipm, voltage_points)` (lines 111-137): connect to
the SiPM (signal emission, then the matrix close command), run the sampling
loop; on an early `return` neither the disconnect nor the ramp-down happens,
otherwise disconnect and, if the ramp-down checkbox is set, ramp down.
`none` only when an enabled ramp-down ran out of fuel (non-termination). -/
def performMeasurement (env : Env) (cfg : RunCfg) (flag : ℕ → Bool)
    (sipm : ℕ) (pts : List ℚ) (p : ℕ) (fuel : ℕ) : Option LoopOut :=
  let lo := measLoop env cfg.check_compliance flag sipm 0 p pts
  let pre := [Event.emitCurrentSipm sipm, Event.matWrite (.closeSipm sipm)]
  if lo.early then some ⟨pre ++ lo.events, lo.polls, true⟩
  else
    (if cfg.ramp_down then doRampDown cfg.ramp_down_step env.readSetVoltage fuel
     else some []).map
      (fun ramp =>
        ⟨pre ++ lo.events ++ [Event.matWrite (.openSipm sipm)] ++ ramp,
         lo.polls, false⟩)

/-- The `for sipm in active_channel_list` loop of `run` (lines 168-171):
measure each channel in list order, polling `running` after each channel
(`if not running: return`). -/
def channelLoop (env : Env) (cfg : RunCfg) (flag : ℕ → Bool) (fuel : ℕ) :
    List ℕ → ℕ → Option LoopOut
  | [], p => some ⟨[], p, false⟩
  | c :: rest, p =>
    (performMeasurement env cfg flag c (voltagePoints cfg) p fuel).bind
      (fun pm =>
        if flag pm.polls then
          (channelLoop env cfg flag fuel rest (pm.polls + 1)).map
            (fun out => ⟨pm.events ++ out.events, out.polls, out.early⟩)
        else some ⟨pm.events, pm.polls + 1, true⟩)

/-- Outcome of one whole `run()`: the event trace and whether the thread ran
to natural completion (`completed = false` when it exited through one of the
cancellation `return`s). -/
structure RunOut where
  events : List Event
  completed : Bool
deriving DecidableEq

/-- `DataAcquisitionThread.run` (lines 139-175): set the compliance limit,
connect the bias path, optionally ramp down first (`check_start_voltage`),
enable the output, build the voltage profile, loop over the active channels,
and on natural completion set 0 V, disable the output and emit
`all_finished`.  (The `:SOUR:VOLT:RANG 60` write happens earlier, in the
thread constructor at line 62, so it is not part of this trace.) -/
def runThread (env : Env) (cfg : RunCfg) (chans : List ℕ) (flag : ℕ → Bool)
    (fuel : ℕ) : Option RunOut :=
  (if cfg.check_start_voltage then
      doRampDown cfg.ramp_down_step env.readSetVoltage fuel
    else some []).bind
    (fun startRamp =>
      (channelLoop env cfg flag fuel chans 0).map
        (fun lo =>
          let tail := if lo.early then []
            else [Event.srcWrite (.setSourVolt 0), Event.srcWrite .outpOff,
                  Event.emitAllFinished]
          ⟨[Event.srcWrite (.setProt cfg.compliance),
            Event.matWrite .connectBias] ++
            startRamp ++ [Event.srcWrite .outpOn] ++ lo.events ++ tail,
           !lo.early⟩))

/-! ## MainWindow-level control calls (lines 650-724)

`stop`, `reset`, `start_run` and `emergency_stop` are straight-line
sequences of calls; they are embedded as action lists in source order.
Pure GUI operations (plot clearing, LED colors, the input dialog, button
enabling) have no run-state or hardware effect and are not modelled. -/

inductive MainAction
  /-- `running = False` (DataAcquisitionThread.stop, line 69) -/
  | setRunningFalse
  /-- `running = True` (DataAcquisitionThread.reset, line 75) -/
  | setRunningTrue
  /-- `self.wait()` (line 70): blocks until the worker thread has returned -/
  | joinThread
  /-- `self.data_thread.start()` (line 691) -/
  | startThread
  /-- a `self.k2420.write` issued directly by MainWindow -/
  | srcCmd (c : SrcCmd)
  /-- a `self.k707.write` issued directly by MainWindow (or via `reset`) -/
  | matCmd (c : MatCmd)
  /-- `self.led_timer_*.start()` (lines 694-695) -/
  | startLedTimers
  /-- `self.led_timer_*.stop()` (lines 715-716 / 723-724) -/
  | stopLedTimers
  /-- `self.outfile = open(...)` (line 701) -/
  | openOutfile
deriving DecidableEq

/-- `DataAcquisitionThread.stop` (lines 67-70): clear the `running` flag,
then `self.wait()` — block until the worker observes the flag and returns.
No instrument command is issued. -/
def stop_actions : List MainAction := [.setRunningFalse, .joinThread]

/-- `DataAcquisitionThread.reset` (lines 72-75): `disconnect_all()`
(the matrix reset command `Y2E0RX`), then `running = True`. -/
def reset_actions : List MainAction := [.matCmd .resetAll, .setRunningTrue]

/-- `MainWindow.start_run` (lines 662-703), GUI-only operations omitted:
`self.data_thread.reset()`, `self.data_thread.start()`, start the LED
timers, open the output file.  There is no check of the running state and
no raise anywhere in the body. -/
def start_run_actions : List MainAction :=
  reset_actions ++ [.startThread, .startLedTimers, .openOutfile]

/-- `MainWindow.emergency_stop` (lines 718-724): `self.data_thread.stop()`
(flag clear + join), then `OUTP OFF`, then `Y2E0RX`, then stop the LED
timers. -/
def emergency_stop_actions : List MainAction :=
  stop_actions ++ [.srcCmd .outpOff, .matCmd .resetAll, .stopLedTimers]

/-- The two hardware commands `emergency_stop` writes after the join, as
trace events (lines 720-721). -/
def emergencyHwEvents : List Event :=
  [Event.srcWrite .outpOff, Event.matWrite .resetAll]

/-- The system trace of an `emergency_stop()` call made while the worker is
running: `stop()` inside it joins the worker first, so the worker's whole
remaining trace precedes the two hardware commands. -/
def emergencySysTrace (out : RunOut) : List Event :=
  out.events ++ emergencyHwEvents

/-! ### Hardware state semantics for MainWindow actions -/

/-- The source / matrix state the claims talk about: output enabled,
commanded voltage, and which relay paths are closed. -/
structure HwState where
  outputOn : Bool
  sourceVolt : ℚ
  biasClosed : Bool
  closedSipms : List ℕ
deriving DecidableEq

def applySrc (hw : HwState) : SrcCmd → HwState
  | .setRange _ => hw
  | .setSourVolt v => { hw with sourceVolt := v }
  | .setProt _ => hw
  | .outpOn => { hw with outputOn := true }
  | .outpOff => { hw with outputOn := false }

def applyMat (hw : HwState) : MatCmd → HwState
  | .connectBias => { hw with biasClosed := true }
  | .closeSipm n => { hw with closedSipms := n :: hw.closedSipms }
  | .openSipm n => { hw with closedSipms := hw.closedSipms.erase n }
  | .resetAll => { hw with biasClosed := false, closedSipms := [] }

/-- Effect of one MainWindow action on the hardware; every action that is
not an instrument write leaves the hardware untouched. -/
def applyMain (hw : HwState) : MainAction → HwState
  | .srcCmd c => applySrc hw c
  | .matCmd c => applyMat hw c
  | _ => hw

def applyAll (hw : HwState) (as : List MainAction) : HwState :=
  as.foldl applyMain hw

/-! ### Active-channel list (create_active_channel_list, lines 650-660) -/

/-- The grid is populated row-by-row from this fixed table (line 429), so
the toggle buttons are iterated in this label order. -/
def channel_mappings : List ℕ := [6, 5, 2, 1, 8, 7, 4, 3, 14, 13, 10, 9, 16, 15, 12, 11]

/-- `MainWindow.create_active_channel_list`: collect `label - 1` for every
checked toggle button in grid order, then `active_channel_list.sort()`
(ascending).  Python's `list.sort` and insertion sort agree: on a total
order the sorted permutation is unique. -/
def create_active_channel_list (checked : ℕ → Bool) : List ℕ :=
  (((channel_mappings.filter checked).map (fun n => n - 1)).insertionSort (· ≤ ·))

/-! ### Spec-side reference for start() (refinement comparison for the
AlreadyRunningError claim) -/

inductive UiError
  | alreadyRunning
deriving DecidableEq

structure UiState where
  running : Bool
deriving DecidableEq

/-- `MainWindow.start_run` as a state transformer: it reads nothing of the
run state and unconditionally performs `start_run_actions`, leaving the
`running` flag set (via `reset`). -/
def start_run (_s : UiState) : UiState × List MainAction :=
  ({ running := true }, start_run_actions)

/-- Reference definition following the spec's words (§4.4/§7): `start()`
rejects with `AlreadyRunningError` when not idle, otherwise starts. -/
def startSpec (s : UiState) : Except UiError (UiState × List MainAction) :=
  if s.running then .error .alreadyRunning else .ok (start_run s)

/-! ### Event-shape predicates (used to classify trace fragments) -/

/-- Shape of every event the `for voltage in voltage_points` loop of
`perform_measurement` can emit for channel `s`. -/
def loopEvent (s : ℕ) : Event → Bool
  | .srcWrite (.setSourVolt _) => true
  | .sleep _ => true
  | .srcQuery _ => true
  | .samplePut c _ _ _ => c == s
  | _ => false

/-- Shape of every event `do_ramp_down` can emit. -/
def rampEvent : Event → Bool
  | .srcQuery .sourVolt => true
  | .srcWrite (.setSourVolt _) => true
  | .sleep _ => true
  | _ => false

/-- Shape of every event `perform_measurement(s, ...)` can emit. -/
def chanEvent (s : ℕ) : Event → Bool
  | .srcWrite (.setSourVolt _) => true
  | .sleep _ => true
  | .srcQuery _ => true
  | .samplePut c _ _ _ => c == s
  | .emitCurrentSipm c => c == s
  | .matWrite (.closeSipm c) => c == s
  | .matWrite (.openSipm c) => c == s
  | _ => false

/-! ### Concrete instances used by witnesses and counterexamples -/

/-- Instrument model answering 0 A to every reading, never tripped, 0 V
read-back. -/
def envZero : Env := ⟨fun _ _ _ => 0, fun _ _ => false, 0⟩

/-- Instrument model where channel 7 trips the compliance exactly at
profile step index 3 (the fourth sample). -/
def envTrip : Env := ⟨fun _ _ _ => 0, fun c i => c == 7 && i == 3, 0⟩

/-- A minimal well-formed configuration: sweep 0..1 V in 1 V steps, fine
scan disabled, no ramp-down, no compliance skip. -/
def cfgBase : RunCfg :=
  { min_voltage := 0
    max_voltage := 1
    voltage_step := 1
    fine_voltage_scan := false
    v_fine_start := 0
    v_fine_end := 0
    v_fine_step := 1
    check_start_voltage := false
    check_compliance := false
    compliance := 105
    ramp_down := false
    ramp_down_step := 5 }

/-- `cfgBase` with `minVoltage = 10 > maxVoltage = 5` (the malformed range
of the validation claim). -/
def cfgReversed : RunCfg := { cfgBase with min_voltage := 10, max_voltage := 5 }

/-- A valid fine-scan configuration whose coarse-after segment overshoots
`maxVoltage`: sweep 0..10 V at 3 V with fine segment [0, 2) at 1 V. -/
def cfgOvershoot : RunCfg :=
  { min_voltage := 0
    max_voltage := 10
    voltage_step := 3
    fine_voltage_scan := true
    v_fine_start := 0
    v_fine_end := 2
    v_fine_step := 1
    check_start_voltage := false
    check_compliance := false
    compliance := 105
    ramp_down := false
    ramp_down_step := 5 }

/-- `cfgBase` with a 4-point profile (0..3 V at 1 V) and the
skip-on-compliance checkbox set. -/
def cfgTrip : RunCfg := { cfgBase with max_voltage := 3, check_compliance := true }

/-- Checked-state of the 16 toggle buttons selecting the SiPMs labelled
1, 3 and 6 (channels 0, 2 and 5). -/
def checkedA : ℕ → Bool := fun n => n == 1 || n == 3 || n == 6

/-- The worker trace of a run over `cfgBase` and channel 3 when a stop
request lands during the sampling loop (first flag poll already reads
false after the second sample): both in-flight samples are emitted, then
the worker returns early — without disconnecting. -/
def stopTrace : List Event :=
  [Event.srcWrite (.setProt 105), Event.matWrite .connectBias,
   Event.srcWrite .outpOn, Event.emitCurrentSipm 3,
   Event.matWrite (.closeSipm 3)] ++
  (stepEvents false 0 ++ [Event.samplePut 3 0 0 0]) ++
  (stepEvents false 1 ++ [Event.samplePut 3 1 0 0])

/-- The expected full trace of a run over `envTrip`/`cfgTrip` and channels
`[7, 9]`: channel 7 samples steps 0-2, trips at step 3 (readings discarded,
0 V + stabilization sleep, disconnect), then channel 9 is measured in full
and the run completes. -/
def tripTrace : List Event :=
  [Event.srcWrite (.setProt 105), Event.matWrite .connectBias,
   Event.srcWrite .outpOn, Event.emitCurrentSipm 7,
   Event.matWrite (.closeSipm 7)] ++
  (stepEvents true 0 ++ [Event.samplePut 7 0 0 0]) ++
  (stepEvents true 1 ++ [Event.samplePut 7 1 0 0]) ++
  (stepEvents true 2 ++ [Event.samplePut 7 2 0 0]) ++
  (stepEvents true 3 ++
    [Event.srcWrite (.setSourVolt 0), Event.sleep stabilization_time]) ++
  [Event.matWrite (.openSipm 7), Event.emitCurrentSipm 9,
   Event.matWrite (.closeSipm 9)] ++
  (stepEvents true 0 ++ [Event.samplePut 9 0 0 0]) ++
  (stepEvents true 1 ++ [Event.samplePut 9 1 0 0]) ++
  (stepEvents true 2 ++ [Event.samplePut 9 2 0 0]) ++
  (stepEvents true 3 ++ [Event.samplePut 9 3 0 0]) ++
  [Event.matWrite (.openSipm 9), Event.srcWrite (.setSourVolt 0),
   Event.srcWrite .outpOff, Event.emitAllFinished]

/-! ## Facts about `arange` and `arangeLen` -/

/-! ### Basic facts about `arange` -/

theorem arange_mem_bounds {start stop step x : ℚ} (hstep : 0 < step)
    (hx : x ∈ arange start stop step) : start ≤ x ∧ x < stop := by
  rcases List.mem_map.1 hx with ⟨i, hi, rfl⟩
  have hilen : i < arangeLen start stop step := List.mem_range.1 hi
  constructor
  · have : (0 : ℚ) ≤ (i : ℚ) * step := by positivity
    linarith
  · have hic : (i : ℤ) < Int.ceil ((stop - start) / step) := Int.lt_toNat.1 hilen
    have hi1 : (i : ℤ) ≤ Int.ceil ((stop - start) / step) - 1 := by omega
    have hi1q : (i : ℚ) ≤ (Int.ceil ((stop - start) / step) : ℚ) - 1 := by
      exact_mod_cast hi1
    have hceil : (Int.ceil ((stop - start) / step) : ℚ) < (stop - start) / step + 1 :=
      Int.ceil_lt_add_one _
    have hiq : (i : ℚ) < (stop - start) / step := by linarith
    have := (mul_lt_mul_right hstep).2 hiq
    rw [div_mul_cancel₀ _ (ne_of_gt hstep)] at this
    linarith

theorem arange_pairwise_lt {start stop step : ℚ} (hstep : 0 < step) :
    (arange start stop step).Pairwise (· < ·) := by
  refine (List.pairwise_map).2 ?_
  refine (List.pairwise_lt_range _).imp ?_
  intro a b hab
  have : (a : ℚ) < (b : ℚ) := by exact_mod_cast hab
  nlinarith

theorem arange_head {start stop step : ℚ} (h : 0 < arangeLen start stop step) :
    (arange start stop step).head? = some start := by
  unfold arange
  obtain ⟨n, hn⟩ : ∃ n, arangeLen start stop step = n + 1 :=
    ⟨arangeLen start stop step - 1, by omega⟩
  rw [hn, List.range_succ_eq_map]
  simp

theorem arangeLen_pos {start stop step : ℚ} (hstep : 0 < step) (h : start < stop) :
    0 < arangeLen start stop step := by
  have hq : (0 : ℚ) < (stop - start) / step := div_pos (by linarith) hstep
  have : (0 : ℤ) < Int.ceil ((stop - start) / step) := by
    exact_mod_cast Int.ceil_pos.2 hq
  unfold arangeLen
  omega

theorem arange_getLast {start stop step : ℚ} (hstep : 0 < step)
    (h : 0 < arangeLen start stop step) :
    (arange start stop step).getLast? =
      some (start + ((arangeLen start stop step : ℚ) - 1) * step) ∧
    stop - step ≤ start + ((arangeLen start stop step : ℚ) - 1) * step := by
  constructor
  · unfold arange
    obtain ⟨n, hn⟩ : ∃ n, arangeLen start stop step = n + 1 :=
      ⟨arangeLen start stop step - 1, by omega⟩
    rw [hn, List.range_succ, List.map_append]
    simp [hn]
  · have hle : (stop - start) / step ≤ (Int.ceil ((stop - start) / step) : ℚ) :=
      Int.le_ceil _
    have hcast : ((Int.ceil ((stop - start) / step)).toNat : ℚ) =
        (Int.ceil ((stop - start) / step) : ℚ) := by
      have : (0 : ℤ) ≤ Int.ceil ((stop - start) / step) := by
        unfold arangeLen at h; omega
      exact_mod_cast congrArg (fun z : ℤ => (z : ℚ)) (Int.toNat_of_nonneg this)
    have h1 : (stop - start) / step ≤ (arangeLen start stop step : ℚ) := by
      unfold arangeLen; rw [hcast]; exact hle
    have h2 : stop - start ≤ (arangeLen start stop step : ℚ) * step := by
      have := (mul_le_mul_right hstep).2 h1
      rwa [div_mul_cancel₀ _ (ne_of_gt hstep)] at this
    nlinarith

/-- Evaluation rule for `arangeLen` at concrete values. -/
theorem arangeLen_eq {start stop step : ℚ} (hstep : 0 < step) (n : ℕ)
    (h1 : ((n : ℚ) - 1) * step < stop - start)
    (h2 : stop - start ≤ (n : ℚ) * step) :
    arangeLen start stop step = n := by
  unfold arangeLen
  have hc : Int.ceil ((stop - start) / step) = (n : ℤ) := by
    rw [Int.ceil_eq_iff]
    constructor
    · rw [lt_div_iff₀ hstep]
      push_cast
      linarith
    · rw [div_le_iff₀ hstep]
      push_cast
      linarith
  rw [hc]
  simp

/-- `arange` is empty when the range is void (positive step). -/
theorem arangeLen_eq_zero {start stop step : ℚ} (hstep : 0 < step)
    (h : stop ≤ start) : arangeLen start stop step = 0 := by
  unfold arangeLen
  have hq : (stop - start) / step ≤ 0 :=
    div_nonpos_of_nonpos_of_nonneg (by linarith) (le_of_lt hstep)
  have h2 : Int.ceil ((stop - start) / step) ≤ 0 := Int.ceil_le.2 (by exact_mod_cast hq)
  omega

/-! ## Claim C5: coarse (fine-scan-disabled) profile -/

/-- C5 (confirmed).  For every configuration with the fine scan disabled,
`minVoltage ≤ maxVoltage` and a positive `voltageStep`, the generated
profile is strictly increasing (hence strictly non-decreasing), its first
element is `minVoltage`, and its last element equals `maxVoltage` within one
step: `maxVoltage ≤ last < maxVoltage + voltageStep`. -/
theorem coarse_profile_sound (cfg : RunCfg)
    (hfine : cfg.fine_voltage_scan = false)
    (hle : cfg.min_voltage ≤ cfg.max_voltage)
    (hstep : 0 < cfg.voltage_step) :
    (voltagePoints cfg).Pairwise (· < ·) ∧
    (voltagePoints cfg).head? = some cfg.min_voltage ∧
    ∃ last, (voltagePoints cfg).getLast? = some last ∧
      cfg.max_voltage ≤ last ∧ last < cfg.max_voltage + cfg.voltage_step := by
  have hpts : voltagePoints cfg =
      arange cfg.min_voltage (cfg.max_voltage + cfg.voltage_step)
        cfg.voltage_step := by
    simp [voltagePoints, hfine]
  have hlt : cfg.min_voltage < cfg.max_voltage + cfg.voltage_step := by linarith
  have hpos := arangeLen_pos hstep hlt
  obtain ⟨hlast, hlb⟩ := arange_getLast hstep hpos
  refine ⟨hpts ▸ arange_pairwise_lt hstep, hpts ▸ arange_head hpos, ?_⟩
  refine ⟨_, hpts ▸ hlast, by linarith, ?_⟩
  have hmem := List.mem_of_getLast?_eq_some hlast
  exact (arange_mem_bounds hstep hmem).2

/-- Witness for C5 at `cfgBase` (`min = 0, max = 1, step = 1`,
profile `[0, 1]`). -/
theorem coarse_profile_sound_witness :
    cfgBase.fine_voltage_scan = false ∧
    cfgBase.min_voltage ≤ cfgBase.max_voltage ∧ 0 < cfgBase.voltage_step ∧
    ((voltagePoints cfgBase).Pairwise (· < ·) ∧
     (voltagePoints cfgBase).head? = some cfgBase.min_voltage ∧
     ∃ last, (voltagePoints cfgBase).getLast? = some last ∧
       cfgBase.max_voltage ≤ last ∧
       last < cfgBase.max_voltage + cfgBase.voltage_step) :=
  ⟨rfl, by norm_num [cfgBase], by norm_num [cfgBase],
    coarse_profile_sound cfgBase rfl (by norm_num [cfgBase])
      (by norm_num [cfgBase])⟩

/-! ## Claim C3: fine-scan profile -/

/-- C3 counterexample.  A valid fine-scan configuration
(`min = 0 ≤ fineStart = 0 ≤ fineEnd = 2 ≤ max = 10`, steps `3` and `1`,
all positive) whose generated profile contains `11 > maxVoltage`: the third
`np.arange(fineEnd, max + step, step)` segment overshoots `maxVoltage` by up
to one coarse step, so "no value outside [minVoltage, maxVoltage]" is
false. -/
theorem voltagePoints_cfgOvershoot : voltagePoints cfgOvershoot = [0, 1, 2, 5, 8, 11] := by
  have h1 : arangeLen 0 0 3 = 0 := arangeLen_eq_zero (by norm_num) (by norm_num)
  have h2 : arangeLen 0 2 1 = 2 := arangeLen_eq (by norm_num) 2 (by norm_num) (by norm_num)
  have h3 : arangeLen 2 (10 + 3) 3 = 4 := arangeLen_eq (by norm_num) 4 (by norm_num) (by norm_num)
  simp [voltagePoints, cfgOvershoot, arange, h1, h2, h3, List.range_succ]
  norm_num

theorem fine_profile_overshoot_cx :
    cfgOvershoot.fine_voltage_scan = true ∧
    cfgOvershoot.min_voltage ≤ cfgOvershoot.v_fine_start ∧
    cfgOvershoot.v_fine_start ≤ cfgOvershoot.v_fine_end ∧
    cfgOvershoot.v_fine_end ≤ cfgOvershoot.max_voltage ∧
    0 < cfgOvershoot.voltage_step ∧ 0 < cfgOvershoot.v_fine_step ∧
    voltagePoints cfgOvershoot = [0, 1, 2, 5, 8, 11] ∧
    (11 : ℚ) ∈ voltagePoints cfgOvershoot ∧
    ¬((11 : ℚ) ≤ cfgOvershoot.max_voltage) := by
  refine ⟨rfl, by norm_num [cfgOvershoot], by norm_num [cfgOvershoot],
    by norm_num [cfgOvershoot], by norm_num [cfgOvershoot],
    by norm_num [cfgOvershoot], voltagePoints_cfgOvershoot, ?_, ?_⟩
  · rw [voltagePoints_cfgOvershoot]
    norm_num
  · norm_num [cfgOvershoot]

/-- C3 (amended).  For every valid fine-scan configuration the profile is
the coarse-before, fine, and coarse-after segments concatenated in that
order, is strictly increasing (hence non-decreasing), and every value lies
in `[minVoltage, maxVoltage + voltageStep)` — i.e. no value is below
`minVoltage`, but the final coarse segment may exceed `maxVoltage` by
strictly less than one coarse step. -/
theorem fine_profile_sound (cfg : RunCfg)
    (hfine : cfg.fine_voltage_scan = true)
    (h1 : cfg.min_voltage ≤ cfg.v_fine_start)
    (h2 : cfg.v_fine_start ≤ cfg.v_fine_end)
    (h3 : cfg.v_fine_end ≤ cfg.max_voltage)
    (hstep : 0 < cfg.voltage_step) (hfstep : 0 < cfg.v_fine_step) :
    voltagePoints cfg =
      arange cfg.min_voltage cfg.v_fine_start cfg.voltage_step ++
      arange cfg.v_fine_start cfg.v_fine_end cfg.v_fine_step ++
      arange cfg.v_fine_end (cfg.max_voltage + cfg.voltage_step)
        cfg.voltage_step ∧
    (voltagePoints cfg).Pairwise (· < ·) ∧
    ∀ x ∈ voltagePoints cfg,
      cfg.min_voltage ≤ x ∧ x < cfg.max_voltage + cfg.voltage_step := by
  have hpts : voltagePoints cfg =
      arange cfg.min_voltage cfg.v_fine_start cfg.voltage_step ++
      arange cfg.v_fine_start cfg.v_fine_end cfg.v_fine_step ++
      arange cfg.v_fine_end (cfg.max_voltage + cfg.voltage_step)
        cfg.voltage_step := by
    simp [voltagePoints, hfine]
  refine ⟨hpts, ?_, ?_⟩
  · rw [hpts, List.pairwise_append, List.pairwise_append]
    refine ⟨⟨arange_pairwise_lt hstep, arange_pairwise_lt hfstep, ?_⟩,
      arange_pairwise_lt hstep, ?_⟩
    · intro a ha b hb
      have hau := (arange_mem_bounds hstep ha).2
      have hbl := (arange_mem_bounds hfstep hb).1
      linarith
    · intro a ha b hb
      rcases List.mem_append.1 ha with ha | ha
      · have hau := (arange_mem_bounds hstep ha).2
        have hbl := (arange_mem_bounds hstep hb).1
        linarith
      · have hau := (arange_mem_bounds hfstep ha).2
        have hbl := (arange_mem_bounds hstep hb).1
        linarith
  · intro x hx
    rw [hpts] at hx
    rcases List.mem_append.1 hx with hx | hx
    · rcases List.mem_append.1 hx with hx | hx
      · obtain ⟨hl, hu⟩ := arange_mem_bounds hstep hx
        constructor
        · exact hl
        · linarith
      · obtain ⟨hl, hu⟩ := arange_mem_bounds hfstep hx
        constructor
        · linarith
        · linarith
    · obtain ⟨hl, hu⟩ := arange_mem_bounds hstep hx
      constructor
      · linarith
      · exact hu

/-- Witness for the amended C3 at the counterexample configuration. -/
theorem fine_profile_sound_witness :
    (voltagePoints cfgOvershoot).Pairwise (· < ·) ∧
    ∀ x ∈ voltagePoints cfgOvershoot,
      cfgOvershoot.min_voltage ≤ x ∧
      x < cfgOvershoot.max_voltage + cfgOvershoot.voltage_step := by
  have h := fine_profile_sound cfgOvershoot rfl (by norm_num [cfgOvershoot])
    (by norm_num [cfgOvershoot]) (by norm_num [cfgOvershoot])
    (by norm_num [cfgOvershoot]) (by norm_num [cfgOvershoot])
  exact ⟨h.2.1, h.2.2⟩

/-! ## Facts about the ramp-down loop -/

/-- A non-positive read-back voltage makes the ramp-down loop exit at once,
writing nothing. -/
theorem rampWritesFuel_nonpos (step : ℤ) (fuel : ℕ) (v : ℚ) (hv : ¬(0 < v)) :
    rampWritesFuel step fuel v = some [] := by
  cases fuel <;> simp [rampWritesFuel, hv]

/-- Every value list produced by the ramp-down loop descends by
`max 0 (previous - step)` from the read-back start, and is nonnegative. -/
theorem rampWrites_chain (step : ℤ) :
    ∀ (fuel : ℕ) (v0 : ℚ) (ws : List ℚ),
      rampWritesFuel step fuel v0 = some ws →
      List.Chain (fun a b => b = max 0 (a - (step : ℚ))) v0 ws ∧
      ∀ w ∈ ws, 0 ≤ w
  | 0, v0, ws, h => by
    unfold rampWritesFuel at h
    split at h
    · exact absurd h (by simp)
    · cases h
      simp
  | fuel + 1, v0, ws, h => by
    unfold rampWritesFuel at h
    split at h
    · cases hrec : rampWritesFuel step fuel (max 0 (v0 - (step : ℚ))) with
      | none => rw [hrec] at h; simp at h
      | some ws' =>
        rw [hrec] at h
        simp only [Option.map_some', Option.some.injEq] at h
        obtain ⟨hch, hmem⟩ := rampWrites_chain step fuel _ ws' hrec
        subst h
        refine ⟨List.Chain.cons rfl hch, ?_⟩
        intro w hw
        rcases List.mem_cons.1 hw with rfl | hw
        · exact le_max_left _ _
        · exact hmem w hw
    · cases h
      simp

/-- With a positive step, fuel `⌈v / step⌉` suffices for the loop to
finish. -/
theorem rampWrites_terminates_aux (step : ℤ) (hstep : 0 < step) :
    ∀ (fuel : ℕ) (v : ℚ), v ≤ (fuel : ℚ) * (step : ℚ) →
      (rampWritesFuel step fuel v).isSome = true
  | 0, v, hv => by
    rw [rampWritesFuel_nonpos step 0 v (by push_cast at hv; linarith)]
    rfl
  | fuel + 1, v, hv => by
    by_cases h0 : 0 < v
    · have hstepq : (0 : ℚ) < (step : ℚ) := by exact_mod_cast hstep
      have hrec : max 0 (v - (step : ℚ)) ≤ (fuel : ℚ) * (step : ℚ) := by
        have h1 : v - (step : ℚ) ≤ (fuel : ℚ) * (step : ℚ) := by
          push_cast at hv ⊢
          linarith
        have h2 : (0 : ℚ) ≤ (fuel : ℚ) * (step : ℚ) := by positivity
        exact max_le h2 h1
      have := rampWrites_terminates_aux step hstep fuel _ hrec
      unfold rampWritesFuel
      rw [if_pos h0]
      cases hx : rampWritesFuel step fuel (max 0 (v - (step : ℚ))) with
      | none => rw [hx] at this; simp at this
      | some ws => simp
    · rw [rampWritesFuel_nonpos step _ v h0]
      rfl

/-- With a non-positive step and a positive start the loop runs forever:
no fuel is ever enough. -/
theorem rampWrites_diverges (step : ℤ) (hstep : step ≤ 0) :
    ∀ (fuel : ℕ) (v : ℚ), 0 < v → rampWritesFuel step fuel v = none
  | 0, v, hv => by simp [rampWritesFuel, hv]
  | fuel + 1, v, hv => by
    have hstepq : (step : ℚ) ≤ 0 := by exact_mod_cast hstep
    have hv' : 0 < max 0 (v - (step : ℚ)) := lt_max_of_lt_right (by linarith)
    unfold rampWritesFuel
    rw [if_pos hv, rampWrites_diverges step hstep fuel _ hv']
    rfl

/-- A terminating ramp from a positive start ends with a commanded 0 V. -/
theorem rampWrites_getLast (step : ℤ) :
    ∀ (fuel : ℕ) (v : ℚ) (ws : List ℚ),
      rampWritesFuel step fuel v = some ws → 0 < v →
      ws.getLast? = some 0
  | 0, v, ws, h, hv => by simp [rampWritesFuel, hv] at h
  | fuel + 1, v, ws, h, hv => by
    unfold rampWritesFuel at h
    rw [if_pos hv] at h
    cases hrec : rampWritesFuel step fuel (max 0 (v - (step : ℚ))) with
    | none => rw [hrec] at h; simp at h
    | some ws' =>
      rw [hrec] at h
      simp only [Option.map_some', Option.some.injEq] at h
      subst h
      by_cases h0 : 0 < max 0 (v - (step : ℚ))
      · have hlast := rampWrites_getLast step fuel _ ws' hrec h0
        rw [List.getLast?_cons, hlast]
        rfl
      · have hmax : max 0 (v - (step : ℚ)) = 0 :=
          le_antisymm (not_lt.1 h0) (le_max_left _ _)
        rw [rampWritesFuel_nonpos step fuel _ h0] at hrec
        cases hrec
        simp [hmax]

/-! ## Claim C8: ramp-down behaviour -/

/-- C8 (confirmed).  `do_ramp_down` first re-reads the instrument's actual
set voltage (`SOUR:VOLT?` is the head of its event trace, before any
write), then repeatedly commands `max 0 (previous - step)` — so no
commanded voltage is ever negative.  Applied at 12 V with a 5 V step (see
the witness) the `Chain` conjunct is exactly the trajectory 12→7→2→0. -/
theorem ramp_down_clamped (step : ℤ) (v0 : ℚ) (fuel : ℕ) (ws : List ℚ)
    (h : rampWritesFuel step fuel v0 = some ws) :
    doRampDown step v0 fuel = some (Event.srcQuery .sourVolt ::
      ws.flatMap (fun v => [Event.srcWrite (.setSourVolt v), Event.sleep 1])) ∧
    List.Chain (fun a b => b = max 0 (a - (step : ℚ))) v0 ws ∧
    ∀ w ∈ ws, 0 ≤ w := by
  obtain ⟨hch, hmem⟩ := rampWrites_chain step fuel v0 ws h
  refine ⟨?_, hch, hmem⟩
  rw [doRampDown, h]
  rfl

/-- Witness for C8: from a 12 V read-back with a 5 V step the loop writes
exactly 7, 2, 0 — the commanded trajectory 12→7→2→0 — and the trace opens
with the `SOUR:VOLT?` read-back. -/
theorem ramp_down_clamped_witness :
    rampWritesFuel 5 3 12 = some [7, 2, 0] ∧
    (doRampDown 5 12 3 = some (Event.srcQuery .sourVolt ::
       ([7, 2, 0] : List ℚ).flatMap
         (fun v => [Event.srcWrite (.setSourVolt v), Event.sleep 1])) ∧
     List.Chain (fun a b => b = max 0 (a - ((5 : ℤ) : ℚ))) 12 [7, 2, 0] ∧
     ∀ w ∈ ([7, 2, 0] : List ℚ), 0 ≤ w) := by
  have h : rampWritesFuel 5 3 12 = some [7, 2, 0] := by
    norm_num [rampWritesFuel]
  exact ⟨h, ramp_down_clamped 5 12 3 [7, 2, 0] h⟩

/-! ## Claim C10: ramp-down termination -/

/-- C10 (confirmed).  The ramp-down loop terminates exactly when the
(unvalidated, `int(...)`-parsed) step is strictly positive or the read-back
start is not above 0; with a positive step and positive start it terminates
and the final commanded voltage is exactly 0; with a non-positive step and a
positive start no amount of fuel finishes it — the loop runs forever. -/
theorem ramp_down_termination (step : ℤ) (v0 : ℚ) :
    ((∃ fuel ws, rampWritesFuel step fuel v0 = some ws) ↔ 0 < step ∨ v0 ≤ 0) ∧
    (0 < step → 0 < v0 →
      ∃ fuel ws, rampWritesFuel step fuel v0 = some ws ∧
        ws.getLast? = some 0) ∧
    (step ≤ 0 → 0 < v0 → ∀ fuel, rampWritesFuel step fuel v0 = none) := by
  have hterm : 0 < step → 0 < v0 →
      ∃ fuel ws, rampWritesFuel step fuel v0 = some ws := by
    intro hstep hv0
    have hstepq : (0 : ℚ) < (step : ℚ) := by exact_mod_cast hstep
    refine ⟨(Int.ceil (v0 / (step : ℚ))).toNat, ?_⟩
    have hbound : v0 ≤ ((Int.ceil (v0 / (step : ℚ))).toNat : ℚ) * (step : ℚ) := by
      have hq : (0 : ℚ) < v0 / (step : ℚ) := div_pos hv0 hstepq
      have hc : (0 : ℤ) < Int.ceil (v0 / (step : ℚ)) := Int.ceil_pos.2 hq
      have hcast : (((Int.ceil (v0 / (step : ℚ))).toNat : ℤ) : ℚ) =
          (Int.ceil (v0 / (step : ℚ)) : ℚ) := by
        exact_mod_cast congrArg (fun z : ℤ => (z : ℚ)) (Int.toNat_of_nonneg (le_of_lt hc))
      have hle : v0 / (step : ℚ) ≤ (Int.ceil (v0 / (step : ℚ)) : ℚ) := Int.le_ceil _
      have := (mul_le_mul_right hstepq).2 hle
      rw [div_mul_cancel₀ _ (ne_of_gt hstepq)] at this
      have heq : ((Int.ceil (v0 / (step : ℚ))).toNat : ℚ) =
          (Int.ceil (v0 / (step : ℚ)) : ℚ) := by
        exact_mod_cast hcast
      rw [heq]
      exact this
    have hs := rampWrites_terminates_aux step hstep _ v0 hbound
    cases hx : rampWritesFuel step (Int.ceil (v0 / (step : ℚ))).toNat v0 with
    | none => rw [hx] at hs; simp at hs
    | some ws => exact ⟨ws, rfl⟩
  refine ⟨⟨?_, ?_⟩, ?_, ?_⟩
  · rintro ⟨fuel, ws, h⟩
    by_contra hcon
    push_neg at hcon
    obtain ⟨hstep, hv0⟩ := hcon
    rw [rampWrites_diverges step (by omega) fuel v0 hv0] at h
    cases h
  · rintro (hstep | hv0)
    · by_cases hv0 : 0 < v0
      · exact hterm hstep hv0
      · exact ⟨0, [], rampWritesFuel_nonpos step 0 v0 hv0⟩
    · exact ⟨0, [], rampWritesFuel_nonpos step 0 v0 (by linarith)⟩
  · intro hstep hv0
    obtain ⟨fuel, ws, h⟩ := hterm hstep hv0
    exact ⟨fuel, ws, h, rampWrites_getLast step fuel v0 ws h hv0⟩
  · intro hstep hv0 fuel
    exact rampWrites_diverges step hstep fuel v0 hv0

/-! ## Claim C9: stop() touches no hardware -/

/-- C9 (confirmed).  `DataAcquisitionThread.stop` (lines 67-70) only clears
the cooperative `running` flag and then blocks in `self.wait()` until the
worker observes the flag and returns; it contains no source or matrix
command, so folding the hardware semantics over it leaves every hardware
state — output enablement, commanded voltage, and all relay states —
unchanged. -/
theorem stop_touches_no_hardware :
    stop_actions = [MainAction.setRunningFalse, MainAction.joinThread] ∧
    MainAction.joinThread ∈ stop_actions ∧
    (∀ a ∈ stop_actions,
      (∀ c, a ≠ MainAction.srcCmd c) ∧ (∀ m, a ≠ MainAction.matCmd m)) ∧
    ∀ hw : HwState, applyAll hw stop_actions = hw := by
  refine ⟨rfl, by simp [stop_actions], ?_, ?_⟩
  · intro a ha
    rcases List.mem_cons.1 ha with rfl | ha
    · exact ⟨fun c => by simp, fun m => by simp⟩
    · rcases List.mem_cons.1 ha with rfl | ha
      · exact ⟨fun c => by simp, fun m => by simp⟩
      · simp at ha
  · intro hw
    rfl

/-! ## Claim C7: start() while Running -/

/-- C7 counterexample.  The spec-side reference `startSpec` rejects a start
in the `Running` state with `AlreadyRunningError`, but the source
`start_run` (lines 662-703) contains no state check and no raise: invoked
in the `Running` state it proceeds, and its action sequence includes the
matrix reset command `Y2E0RX` (via `reset`, lines 72-75) and the thread
restart — so the in-progress run is affected, not left alone. -/
theorem start_run_unguarded_cx :
    startSpec { running := true } = .error .alreadyRunning ∧
    start_run { running := true } = ({ running := true }, start_run_actions) ∧
    MainAction.matCmd .resetAll ∈ start_run_actions ∧
    MainAction.startThread ∈ start_run_actions ∧
    MainAction.setRunningTrue ∈ start_run_actions := by
  refine ⟨rfl, rfl, ?_, ?_, ?_⟩ <;>
    simp [start_run_actions, reset_actions]

/-- C7 (amended).  `start_run` performs no running-state check and cannot
raise: from any state — in particular while `Running` — it unconditionally
issues the matrix disconnect-all command (opening every relay path under
the in-progress run), re-arms the `running` flag, restarts the worker and
reopens the output file.  After it, every previously closed relay path is
open. -/
theorem start_run_unconditional (s : UiState) :
    start_run s = ({ running := true }, start_run_actions) ∧
    MainAction.matCmd .resetAll ∈ start_run_actions ∧
    ∀ hw : HwState, (applyAll hw start_run_actions).closedSipms = [] ∧
      (applyAll hw start_run_actions).biasClosed = false := by
  refine ⟨rfl, by simp [start_run_actions, reset_actions], ?_⟩
  intro hw
  constructor <;> rfl

/-! ## Shape lemmas for the trace fragments -/

theorem stepEvents_shape (cc : Bool) (v : ℚ) (s : ℕ) :
    ∀ e ∈ stepEvents cc v, loopEvent s e = true := by
  intro e he
  unfold stepEvents at he
  rcases List.mem_append.1 he with hAB | hC
  · rcases List.mem_append.1 hAB with hA | hB
    · rcases List.mem_cons.1 hA with rfl | hA
      · rfl
      · rcases List.mem_cons.1 hA with rfl | hA
        · rfl
        · simp at hA
    · obtain ⟨i, _, rfl⟩ := List.mem_map.1 hB
      rfl
  · rcases cc with _ | _
    · simp at hC
    · simp at hC
      subst hC
      rfl

theorem measLoop_shape (env : Env) (cc : Bool) (flag : ℕ → Bool) (s : ℕ) :
    ∀ (pts : List ℚ) (i p : ℕ),
      ∀ e ∈ (measLoop env cc flag s i p pts).events, loopEvent s e = true
  | [], _, _ => by simp [measLoop]
  | v :: rest, i, p => by
    intro e he
    unfold measLoop at he
    by_cases hc : (cc && env.compliance s i) = true
    · rw [if_pos hc] at he
      simp only [List.mem_append, List.mem_cons, List.not_mem_nil, or_false] at he
      rcases he with he | rfl | rfl
      · exact stepEvents_shape cc v s e he
      · rfl
      · rfl
    · rw [if_neg hc] at he
      by_cases hf : flag p = true
      · rw [if_pos hf] at he
        simp only [List.mem_append, List.mem_cons, List.not_mem_nil,
          or_false] at he
        rcases he with (he | rfl) | he
        · exact stepEvents_shape cc v s e he
        · simp [loopEvent]
        · exact measLoop_shape env cc flag s rest (i + 1) (p + 1) e he
      · rw [if_neg hf] at he
        simp only [List.mem_append, List.mem_cons, List.not_mem_nil,
          or_false] at he
        rcases he with he | rfl
        · exact stepEvents_shape cc v s e he
        · simp [loopEvent]

theorem rampEvents_shape {step : ℤ} {v0 : ℚ} {fuel : ℕ} {evs : List Event}
    (h : doRampDown step v0 fuel = some evs) :
    ∀ e ∈ evs, rampEvent e = true := by
  unfold doRampDown at h
  cases hws : rampWritesFuel step fuel v0 with
  | none => rw [hws] at h; cases h
  | some ws =>
    rw [hws] at h
    simp only [Option.map_some', Option.some.injEq] at h
    subst h
    intro e he
    simp only [List.mem_cons, List.mem_flatMap] at he
    rcases he with rfl | ⟨v, _, hv⟩
    · rfl
    · simp only [List.mem_cons, List.not_mem_nil, or_false] at hv
      rcases hv with rfl | rfl
      · rfl
      · rfl

theorem loopEvent_chanEvent {s : ℕ} {e : Event} (h : loopEvent s e = true) :
    chanEvent s e = true := by
  cases e with
  | srcWrite c => cases c <;> simp_all [loopEvent, chanEvent]
  | srcQuery q => rfl
  | matWrite c => cases c <;> simp_all [loopEvent, chanEvent]
  | samplePut c v m vr => simp_all [loopEvent, chanEvent]
  | emitCurrentSipm c => simp_all [loopEvent]
  | emitAllFinished => simp_all [loopEvent]
  | sleep t => rfl

theorem rampEvent_chanEvent {s : ℕ} {e : Event} (h : rampEvent e = true) :
    chanEvent s e = true := by
  cases e with
  | srcWrite c => cases c <;> simp_all [rampEvent, chanEvent]
  | srcQuery q => rfl
  | matWrite c => cases c <;> simp_all [rampEvent, chanEvent]
  | samplePut c v m vr => simp_all [rampEvent]
  | emitCurrentSipm c => simp_all [rampEvent]
  | emitAllFinished => simp_all [rampEvent]
  | sleep t => rfl

theorem performMeasurement_shape {env : Env} {cfg : RunCfg} {flag : ℕ → Bool}
    {s : ℕ} {pts : List ℚ} {p fuel : ℕ} {pm : LoopOut}
    (h : performMeasurement env cfg flag s pts p fuel = some pm) :
    ∀ e ∈ pm.events, chanEvent s e = true := by
  unfold performMeasurement at h
  by_cases he : (measLoop env cfg.check_compliance flag s 0 p pts).early = true
  · rw [if_pos he] at h
    cases h
    intro e hmem
    rcases List.mem_append.1 hmem with hpre | hmem
    · rcases List.mem_cons.1 hpre with rfl | hpre
      · simp [chanEvent]
      · rcases List.mem_cons.1 hpre with rfl | hpre
        · simp [chanEvent]
        · simp at hpre
    · exact loopEvent_chanEvent (measLoop_shape env _ flag s pts 0 p e hmem)
  · rw [if_neg he] at h
    cases hramp : (if cfg.ramp_down then
        doRampDown cfg.ramp_down_step env.readSetVoltage fuel
      else some []) with
    | none => rw [hramp] at h; cases h
    | some ramp =>
      rw [hramp] at h
      simp only [Option.map_some', Option.some.injEq] at h
      subst h
      intro e hmem
      rcases List.mem_append.1 hmem with h1 | hrampmem
      · rcases List.mem_append.1 h1 with h2 | hopen
        · rcases List.mem_append.1 h2 with hpre | hloop
          · rcases List.mem_cons.1 hpre with rfl | hpre
            · simp [chanEvent]
            · rcases List.mem_cons.1 hpre with rfl | hpre
              · simp [chanEvent]
              · simp at hpre
          · exact loopEvent_chanEvent (measLoop_shape env _ flag s pts 0 p e hloop)
        · rcases List.mem_cons.1 hopen with rfl | hopen
          · simp [chanEvent]
          · simp at hopen
      · refine rampEvent_chanEvent ?_
        rcases hrd : cfg.ramp_down with _ | _
        · rw [hrd] at hramp
          simp at hramp
          subst hramp
          simp at hrampmem
        · rw [hrd] at hramp
          rw [if_pos rfl] at hramp
          exact rampEvents_shape hramp e hrampmem

theorem channelLoop_shape {env : Env} {cfg : RunCfg} {flag : ℕ → Bool}
    {fuel : ℕ} :
    ∀ {chans : List ℕ} {p : ℕ} {lo : LoopOut},
      channelLoop env cfg flag fuel chans p = some lo →
      ∀ e ∈ lo.events, ∃ c ∈ chans, chanEvent c e = true
  | [], p, lo, h => by
    cases h
    simp
  | c :: rest, p, lo, h => by
    unfold channelLoop at h
    cases hpm : performMeasurement env cfg flag c (voltagePoints cfg) p fuel with
    | none => rw [hpm] at h; cases h
    | some pm =>
      rw [hpm] at h
      simp only [Option.some_bind] at h
      by_cases hf : flag pm.polls = true
      · rw [if_pos hf] at h
        cases hrec : channelLoop env cfg flag fuel rest (pm.polls + 1) with
        | none => rw [hrec] at h; cases h
        | some out =>
          rw [hrec] at h
          simp only [Option.map_some', Option.some.injEq] at h
          subst h
          intro e hmem
          rcases List.mem_append.1 hmem with hmem | hmem
          · exact ⟨c, List.mem_cons_self c rest, performMeasurement_shape hpm e hmem⟩
          · obtain ⟨c', hc', hev⟩ := channelLoop_shape hrec e hmem
            exact ⟨c', List.mem_cons_of_mem c hc', hev⟩
      · rw [if_neg hf] at h
        cases h
        intro e hmem
        exact ⟨c, List.mem_cons_self c rest, performMeasurement_shape hpm e hmem⟩

/-! ## Pointwise consequences of the shapes -/

theorem loopEvent_not_outpOff {s : ℕ} {e : Event} (h : loopEvent s e = true) :
    isOutpOff e = false ∧ isResetAll e = false ∧ emitProj e = none := by
  cases e with
  | srcWrite c => cases c <;> simp_all [loopEvent, isOutpOff, isResetAll, emitProj]
  | srcQuery q => exact ⟨rfl, rfl, rfl⟩
  | matWrite c => cases c <;> simp_all [loopEvent]
  | samplePut c v m vr => exact ⟨rfl, rfl, rfl⟩
  | emitCurrentSipm c => simp_all [loopEvent]
  | emitAllFinished => simp_all [loopEvent]
  | sleep t => exact ⟨rfl, rfl, rfl⟩

theorem rampEvent_not_outpOff {e : Event} (h : rampEvent e = true) :
    isOutpOff e = false ∧ isResetAll e = false ∧ emitProj e = none ∧
    isSample e = false := by
  cases e with
  | srcWrite c => cases c <;> simp_all [rampEvent, isOutpOff, isResetAll, emitProj, isSample]
  | srcQuery q => exact ⟨rfl, rfl, rfl, rfl⟩
  | matWrite c => cases c <;> simp_all [rampEvent]
  | samplePut c v m vr => simp_all [rampEvent]
  | emitCurrentSipm c => simp_all [rampEvent]
  | emitAllFinished => simp_all [rampEvent]
  | sleep t => exact ⟨rfl, rfl, rfl, rfl⟩

theorem chanEvent_not_outpOff {s : ℕ} {e : Event} (h : chanEvent s e = true) :
    isOutpOff e = false ∧ isResetAll e = false := by
  cases e with
  | srcWrite c => cases c <;> simp_all [chanEvent, isOutpOff, isResetAll]
  | srcQuery q => exact ⟨rfl, rfl⟩
  | matWrite c => cases c <;> simp_all [chanEvent, isOutpOff, isResetAll]
  | samplePut c v m vr => exact ⟨rfl, rfl⟩
  | emitCurrentSipm c => exact ⟨rfl, rfl⟩
  | emitAllFinished => simp_all [chanEvent]
  | sleep t => exact ⟨rfl, rfl⟩

theorem chanEvent_sampleFor {s c : ℕ} {e : Event} (h : chanEvent s e = true)
    (hs : isSampleFor c e = true) : s = c := by
  cases e with
  | samplePut c' v m vr =>
    simp [chanEvent] at h
    simp [isSampleFor] at hs
    omega
  | srcWrite c' => simp [isSampleFor] at hs
  | srcQuery q => simp [isSampleFor] at hs
  | matWrite c' => simp [isSampleFor] at hs
  | emitCurrentSipm c' => simp [isSampleFor] at hs
  | emitAllFinished => simp [isSampleFor] at hs
  | sleep t => simp [isSampleFor] at hs

/-! ## Decomposition of a successful run -/

/-- Any successful `runThread` splits into the fixed prefix, the optional
start-of-run ramp, the output enable, the channel-loop trace, and — on
natural completion only — the terminal 0 V / output-off / `all_finished`
events. -/
theorem runThread_decomp {env : Env} {cfg : RunCfg} {chans : List ℕ}
    {flag : ℕ → Bool} {fuel : ℕ} {out : RunOut}
    (h : runThread env cfg chans flag fuel = some out) :
    ∃ startRamp lo,
      channelLoop env cfg flag fuel chans 0 = some lo ∧
      (∀ e ∈ startRamp, rampEvent e = true) ∧
      out.events =
        [Event.srcWrite (.setProt cfg.compliance),
         Event.matWrite .connectBias] ++
        startRamp ++ [Event.srcWrite .outpOn] ++ lo.events ++
        (if lo.early then []
         else [Event.srcWrite (.setSourVolt 0), Event.srcWrite .outpOff,
               Event.emitAllFinished]) ∧
      out.completed = !lo.early := by
  unfold runThread at h
  cases hs : (if cfg.check_start_voltage then
      doRampDown cfg.ramp_down_step env.readSetVoltage fuel
    else some []) with
  | none => rw [hs] at h; cases h
  | some startRamp =>
    rw [hs] at h
    simp only [Option.some_bind] at h
    cases hlo : channelLoop env cfg flag fuel chans 0 with
    | none => rw [hlo] at h; cases h
    | some lo =>
      rw [hlo] at h
      simp only [Option.map_some', Option.some.injEq] at h
      subst h
      refine ⟨startRamp, lo, rfl, ?_, rfl, rfl⟩
      rcases hc : cfg.check_start_voltage with _ | _
      · rw [hc] at hs
        simp at hs
        subst hs
        intro e he
        simp at he
      · rw [hc, if_pos rfl] at hs
        exact rampEvents_shape hs

/-! ## Runs in which stop() is never requested (every poll reads true) -/

theorem measLoop_flagTrue (env : Env) (cc : Bool) (s : ℕ) :
    ∀ (pts : List ℚ) (i p : ℕ),
      (measLoop env cc (fun _ => true) s i p pts).early = false
  | [], _, _ => rfl
  | v :: rest, i, p => by
    unfold measLoop
    by_cases hc : (cc && env.compliance s i) = true
    · rw [if_pos hc]
    · rw [if_neg hc]
      simp only [if_pos rfl]
      exact measLoop_flagTrue env cc s rest (i + 1) (p + 1)

/-- With nobody requesting a stop, `perform_measurement` completes: it
connects, runs the whole loop, disconnects, and (optionally) ramps down. -/
theorem performMeasurement_flagTrue_decomp {env : Env} {cfg : RunCfg}
    {s : ℕ} {pts : List ℚ} {p fuel : ℕ} {pm : LoopOut}
    (h : performMeasurement env cfg (fun _ => true) s pts p fuel = some pm) :
    pm.early = false ∧
    ∃ ramp, (∀ e ∈ ramp, rampEvent e = true) ∧
      pm.events =
        [Event.emitCurrentSipm s, Event.matWrite (.closeSipm s)] ++
        (measLoop env cfg.check_compliance (fun _ => true) s 0 p pts).events ++
        [Event.matWrite (.openSipm s)] ++ ramp := by
  unfold performMeasurement at h
  rw [if_neg (by rw [measLoop_flagTrue]; simp)] at h
  cases hramp : (if cfg.ramp_down then
      doRampDown cfg.ramp_down_step env.readSetVoltage fuel
    else some []) with
  | none => rw [hramp] at h; cases h
  | some ramp =>
    rw [hramp] at h
    simp only [Option.map_some', Option.some.injEq] at h
    subst h
    refine ⟨rfl, ramp, ?_, rfl⟩
    rcases hrd : cfg.ramp_down with _ | _
    · rw [hrd] at hramp
      simp at hramp
      subst hramp
      intro e he
      simp at he
    · rw [hrd, if_pos rfl] at hramp
      exact rampEvents_shape hramp

/-- With nobody requesting a stop, the channel loop visits every channel of
the list in order: it never exits early and emits exactly one
`current_sipm` signal per channel, in list order. -/
theorem channelLoop_flagTrue {env : Env} {cfg : RunCfg} {fuel : ℕ} :
    ∀ {chans : List ℕ} {p : ℕ} {lo : LoopOut},
      channelLoop env cfg (fun _ => true) fuel chans p = some lo →
      lo.early = false ∧ currentSipmSeq lo.events = chans
  | [], p, lo, h => by
    cases h
    exact ⟨rfl, rfl⟩
  | c :: rest, p, lo, h => by
    unfold channelLoop at h
    cases hpm : performMeasurement env cfg (fun _ => true) c
        (voltagePoints cfg) p fuel with
    | none => rw [hpm] at h; cases h
    | some pm =>
      rw [hpm] at h
      simp only [Option.some_bind, if_true] at h
      cases hrec : channelLoop env cfg (fun _ => true) fuel rest
          (pm.polls + 1) with
      | none => rw [hrec] at h; cases h
      | some out =>
        rw [hrec] at h
        simp only [Option.map_some', Option.some.injEq] at h
        subst h
        obtain ⟨hrecEarly, hrecSeq⟩ := channelLoop_flagTrue hrec
        obtain ⟨_, ramp, hrampShape, hevents⟩ :=
          performMeasurement_flagTrue_decomp hpm
        refine ⟨hrecEarly, ?_⟩
        have hpmSeq : currentSipmSeq pm.events = [c] := by
          rw [hevents]
          unfold currentSipmSeq
          rw [List.filterMap_append, List.filterMap_append,
            List.filterMap_append]
          have h1 : List.filterMap emitProj
              (measLoop env cfg.check_compliance (fun _ => true) c 0 p
                (voltagePoints cfg)).events = [] := by
            rw [List.filterMap_eq_nil_iff]
            intro e he
            exact (loopEvent_not_outpOff
              (measLoop_shape env _ _ c (voltagePoints cfg) 0 p e he)).2.2
          have h2 : List.filterMap emitProj ramp = [] := by
            rw [List.filterMap_eq_nil_iff]
            intro e he
            exact (rampEvent_not_outpOff (hrampShape e he)).2.2.1
          rw [h1, h2]
          rfl
        unfold currentSipmSeq at hpmSeq hrecSeq ⊢
        rw [List.filterMap_append, hpmSeq, hrecSeq]
        rfl

/-- Occurrence counts of the two safing commands in any successful worker
trace: `OUTP OFF` appears exactly once if the run completed naturally and
never otherwise (line 174 is the only write of it in the thread), and the
matrix reset `Y2E0RX` never appears in the worker's own run. -/
theorem runThread_counts {env : Env} {cfg : RunCfg} {chans : List ℕ}
    {flag : ℕ → Bool} {fuel : ℕ} {out : RunOut}
    (h : runThread env cfg chans flag fuel = some out) :
    out.events.countP isOutpOff = (if out.completed then 1 else 0) ∧
    out.events.countP isResetAll = 0 := by
  obtain ⟨startRamp, lo, hlo, hrampShape, hevents, hcompleted⟩ :=
    runThread_decomp h
  have hch := channelLoop_shape hlo
  have hloOff : lo.events.countP isOutpOff = 0 := by
    rw [List.countP_eq_zero]
    intro e he
    obtain ⟨c, _, hce⟩ := hch e he
    simp [(chanEvent_not_outpOff hce).1]
  have hloReset : lo.events.countP isResetAll = 0 := by
    rw [List.countP_eq_zero]
    intro e he
    obtain ⟨c, _, hce⟩ := hch e he
    simp [(chanEvent_not_outpOff hce).2]
  have hrampOff : startRamp.countP isOutpOff = 0 := by
    rw [List.countP_eq_zero]
    intro e he
    simp [(rampEvent_not_outpOff (hrampShape e he)).1]
  have hrampReset : startRamp.countP isResetAll = 0 := by
    rw [List.countP_eq_zero]
    intro e he
    simp [(rampEvent_not_outpOff (hrampShape e he)).2.1]
  rw [hevents, hcompleted]
  rcases hle : lo.early with _ | _
  · constructor <;>
      simp [List.countP_append, hloOff, hloReset, hrampOff, hrampReset,
        List.countP_cons, isOutpOff, isResetAll]
  · constructor <;>
      simp [List.countP_append, hloOff, hloReset, hrampOff, hrampReset,
        List.countP_cons, isOutpOff, isResetAll]

/-- In a run with no stop request, the worker completes and connects to
exactly the channels of the list, in list order. -/
theorem runThread_flagTrue {env : Env} {cfg : RunCfg} {chans : List ℕ}
    {fuel : ℕ} {out : RunOut}
    (h : runThread env cfg chans (fun _ => true) fuel = some out) :
    out.completed = true ∧ currentSipmSeq out.events = chans := by
  obtain ⟨startRamp, lo, hlo, hrampShape, hevents, hcompleted⟩ :=
    runThread_decomp h
  obtain ⟨hearly, hseq⟩ := channelLoop_flagTrue hlo
  have hrampSeq : List.filterMap emitProj startRamp = [] := by
    rw [List.filterMap_eq_nil_iff]
    intro e he
    exact (rampEvent_not_outpOff (hrampShape e he)).2.2.1
  refine ⟨by rw [hcompleted, hearly]; rfl, ?_⟩
  rw [hevents, hearly]
  unfold currentSipmSeq at hseq ⊢
  simp only [List.filterMap_append, hrampSeq, hseq]
  simp [emitProj]

/-! ## Claim C6: channel ordering -/

/-- C6 (confirmed).  `create_active_channel_list` returns the selected
channel indices sorted ascending (`active_channel_list.sort()`, line 660) no
matter in which grid order the buttons supplied them, and a run over that
list connects to the channels exactly in that ascending order — the
`current_sipm` emission sequence of the whole trace equals the sorted list,
with no reordering and one channel at a time. -/
theorem channels_sorted_and_run_in_order (checked : ℕ → Bool) (env : Env)
    (cfg : RunCfg) (fuel : ℕ) (out : RunOut)
    (h : runThread env cfg (create_active_channel_list checked)
      (fun _ => true) fuel = some out) :
    (create_active_channel_list checked).Sorted (· ≤ ·) ∧
    (create_active_channel_list checked).Perm
      ((channel_mappings.filter checked).map (fun n => n - 1)) ∧
    currentSipmSeq out.events = create_active_channel_list checked := by
  refine ⟨List.sorted_insertionSort _ _, List.perm_insertionSort _ _, ?_⟩
  exact (runThread_flagTrue h).2

/-! ## Concrete evaluations shared by witnesses and counterexamples -/

theorem arange_nil {start stop step : ℚ} (h : arangeLen start stop step = 0) :
    arange start stop step = [] := by
  unfold arange
  rw [h]
  rfl

theorem arangeLen_reversed : arangeLen 10 (5 + 1) 1 = 0 :=
  arangeLen_eq_zero (by norm_num) (by norm_num)

theorem voltagePoints_cfgReversed : voltagePoints cfgReversed = [] := by
  simp [voltagePoints, cfgReversed, cfgBase, arange, arangeLen_reversed]

/-- The full trace of a run over `cfgReversed` (empty profile) and channel 0:
the run starts, touches the hardware, measures nothing, and completes. -/
theorem runThread_cfgReversed_single :
    runThread envZero cfgReversed [0] (fun _ => true) 0 =
    some ⟨[Event.srcWrite (.setProt 105), Event.matWrite .connectBias,
           Event.srcWrite .outpOn, Event.emitCurrentSipm 0,
           Event.matWrite (.closeSipm 0), Event.matWrite (.openSipm 0),
           Event.srcWrite (.setSourVolt 0), Event.srcWrite .outpOff,
           Event.emitAllFinished], true⟩ := by
  simp [runThread, channelLoop, performMeasurement, measLoop, voltagePoints,
    arange, arangeLen_reversed, cfgReversed, cfgBase, envZero]

/-- The full trace of a run over `cfgReversed` and channels `[0, 2, 5]`. -/
theorem runThread_cfgReversed_three :
    runThread envZero cfgReversed [0, 2, 5] (fun _ => true) 0 =
    some ⟨[Event.srcWrite (.setProt 105), Event.matWrite .connectBias,
           Event.srcWrite .outpOn, Event.emitCurrentSipm 0,
           Event.matWrite (.closeSipm 0), Event.matWrite (.openSipm 0),
           Event.emitCurrentSipm 2, Event.matWrite (.closeSipm 2),
           Event.matWrite (.openSipm 2), Event.emitCurrentSipm 5,
           Event.matWrite (.closeSipm 5), Event.matWrite (.openSipm 5),
           Event.srcWrite (.setSourVolt 0), Event.srcWrite .outpOff,
           Event.emitAllFinished], true⟩ := by
  simp [runThread, channelLoop, performMeasurement, measLoop, voltagePoints,
    arange, arangeLen_reversed, cfgReversed, cfgBase, envZero]

/-- Witness for C6: buttons 1, 3, 6 checked — supplied by the grid in label
order `[6, 1, 3]`, hence channels `[5, 0, 2]` — are sorted to `[0, 2, 5]`
and the run connects to them in exactly that ascending order. -/
theorem channels_sorted_witness :
    create_active_channel_list checkedA = [0, 2, 5] ∧
    ((create_active_channel_list checkedA).Sorted (· ≤ ·) ∧
     (create_active_channel_list checkedA).Perm
       ((channel_mappings.filter checkedA).map (fun n => n - 1)) ∧
     currentSipmSeq
       (RunOut.events ⟨[Event.srcWrite (.setProt 105),
          Event.matWrite .connectBias, Event.srcWrite .outpOn,
          Event.emitCurrentSipm 0, Event.matWrite (.closeSipm 0),
          Event.matWrite (.openSipm 0), Event.emitCurrentSipm 2,
          Event.matWrite (.closeSipm 2), Event.matWrite (.openSipm 2),
          Event.emitCurrentSipm 5, Event.matWrite (.closeSipm 5),
          Event.matWrite (.openSipm 5), Event.srcWrite (.setSourVolt 0),
          Event.srcWrite .outpOff, Event.emitAllFinished], true⟩) =
       create_active_channel_list checkedA) := by
  have hlist : create_active_channel_list checkedA = [0, 2, 5] := by decide
  refine ⟨hlist, ?_⟩
  exact channels_sorted_and_run_in_order checkedA envZero cfgReversed 0 _
    (by rw [hlist]; exact runThread_cfgReversed_three)

/-! ## Claim C2: range validation -/

/-- C2 counterexample.  `minVoltage = 10 > maxVoltage = 5` (the spec's own
example) raises nothing: there is no `InvalidRangeError` — no validation
code exists in `run` (lines 139-175) at all.  The profile is empty, yet the
run still starts, writes the compliance limit, closes the bias path,
enables the output, connects and disconnects the channel, and completes
with `all_finished` — flatly contradicting "detected before any hardware
interaction ... the run never starts". -/
theorem no_validation_cx :
    cfgReversed.min_voltage > cfgReversed.max_voltage ∧
    voltagePoints cfgReversed = [] ∧
    runThread envZero cfgReversed [0] (fun _ => true) 0 =
      some ⟨[Event.srcWrite (.setProt 105), Event.matWrite .connectBias,
             Event.srcWrite .outpOn, Event.emitCurrentSipm 0,
             Event.matWrite (.closeSipm 0), Event.matWrite (.openSipm 0),
             Event.srcWrite (.setSourVolt 0), Event.srcWrite .outpOff,
             Event.emitAllFinished], true⟩ := by
  refine ⟨by norm_num [cfgReversed, cfgBase], voltagePoints_cfgReversed,
    runThread_cfgReversed_single⟩

theorem performMeasurement_empty_profile {env : Env} {cfg : RunCfg}
    {flag : ℕ → Bool} {s p fuel : ℕ} {pm : LoopOut}
    (hvp : voltagePoints cfg = [])
    (h : performMeasurement env cfg flag s (voltagePoints cfg) p fuel = some pm) :
    totalSamples pm.events = 0 := by
  rw [hvp] at h
  unfold performMeasurement measLoop at h
  simp only [] at h
  rw [if_neg (by simp)] at h
  cases hramp : (if cfg.ramp_down then
      doRampDown cfg.ramp_down_step env.readSetVoltage fuel
    else some []) with
  | none => rw [hramp] at h; cases h
  | some ramp =>
    rw [hramp] at h
    simp only [Option.map_some', Option.some.injEq] at h
    subst h
    unfold totalSamples
    have hr : ramp.countP isSample = 0 := by
      rw [List.countP_eq_zero]
      intro e he
      rcases hrd : cfg.ramp_down with _ | _
      · rw [hrd] at hramp
        simp at hramp
        subst hramp
        simp at he
      · rw [hrd, if_pos rfl] at hramp
        simp [(rampEvent_not_outpOff (rampEvents_shape hramp e he)).2.2.2]
    simp [List.countP_append, List.countP_cons, hr, isSample]

theorem channelLoop_empty_profile {env : Env} {cfg : RunCfg}
    {flag : ℕ → Bool} {fuel : ℕ} (hvp : voltagePoints cfg = []) :
    ∀ {chans : List ℕ} {p : ℕ} {lo : LoopOut},
      channelLoop env cfg flag fuel chans p = some lo →
      totalSamples lo.events = 0
  | [], p, lo, h => by
    cases h
    rfl
  | c :: rest, p, lo, h => by
    unfold channelLoop at h
    cases hpm : performMeasurement env cfg flag c (voltagePoints cfg) p fuel with
    | none => rw [hpm] at h; cases h
    | some pm =>
      rw [hpm] at h
      simp only [Option.some_bind] at h
      by_cases hf : flag pm.polls = true
      · rw [if_pos hf] at h
        cases hrec : channelLoop env cfg flag fuel rest (pm.polls + 1) with
        | none => rw [hrec] at h; cases h
        | some out =>
          rw [hrec] at h
          simp only [Option.map_some', Option.some.injEq] at h
          subst h
          have h1 := performMeasurement_empty_profile hvp hpm
          have h2 := channelLoop_empty_profile hvp hrec
          unfold totalSamples at h1 h2 ⊢
          simp [List.countP_append, h1, h2]
      · rw [if_neg hf] at h
        cases h
        show totalSamples pm.events = 0
        exact performMeasurement_empty_profile hvp hpm

/-- C2 (amended).  No range validation exists and no `InvalidRangeError` is
ever raised: for any configuration with `maxVoltage + voltageStep ≤
minVoltage` (in particular the spec's `min=10 > max=5` at step 1) and fine
scan disabled, the profile is empty — yet the run still starts, writes the
compliance limit, closes the bias path, enables the output, emits no
samples, and completes naturally with `all_finished`. -/
theorem run_starts_without_validation (env : Env) (cfg : RunCfg)
    (chans : List ℕ) (fuel : ℕ) (out : RunOut)
    (hfine : cfg.fine_voltage_scan = false)
    (hstep : 0 < cfg.voltage_step)
    (hgap : cfg.max_voltage + cfg.voltage_step ≤ cfg.min_voltage)
    (h : runThread env cfg chans (fun _ => true) fuel = some out) :
    voltagePoints cfg = [] ∧
    Event.matWrite .connectBias ∈ out.events ∧
    Event.srcWrite .outpOn ∈ out.events ∧
    totalSamples out.events = 0 ∧
    out.completed = true ∧
    Event.emitAllFinished ∈ out.events := by
  have hvp : voltagePoints cfg = [] := by
    simp only [voltagePoints, hfine, Bool.false_eq_true, if_neg, ite_false]
    exact arange_nil (arangeLen_eq_zero hstep hgap)
  obtain ⟨startRamp, lo, hlo, hrampShape, hevents, hcompleted⟩ :=
    runThread_decomp h
  obtain ⟨hearly, _⟩ := channelLoop_flagTrue hlo
  have hcomp : out.completed = true := by rw [hcompleted, hearly]; rfl
  refine ⟨hvp, ?_, ?_, ?_, hcomp, ?_⟩
  · rw [hevents]
    simp
  · rw [hevents]
    simp
  · have hloS := channelLoop_empty_profile hvp hlo
    have hrampS : startRamp.countP isSample = 0 := by
      rw [List.countP_eq_zero]
      intro e he
      simp [(rampEvent_not_outpOff (hrampShape e he)).2.2.2]
    rw [hevents, hearly]
    unfold totalSamples at hloS ⊢
    simp [List.countP_append, List.countP_cons, hloS, hrampS, isSample]
  · rw [hevents, hearly]
    simp

/-- Witness for the amended C2 at the counterexample configuration. -/
theorem run_starts_without_validation_witness :
    voltagePoints cfgReversed = [] ∧
    Event.matWrite .connectBias ∈
      (RunOut.events ⟨[Event.srcWrite (.setProt 105),
         Event.matWrite .connectBias, Event.srcWrite .outpOn,
         Event.emitCurrentSipm 0, Event.matWrite (.closeSipm 0),
         Event.matWrite (.openSipm 0), Event.srcWrite (.setSourVolt 0),
         Event.srcWrite .outpOff, Event.emitAllFinished], true⟩) ∧
    Event.srcWrite .outpOn ∈
      (RunOut.events ⟨[Event.srcWrite (.setProt 105),
         Event.matWrite .connectBias, Event.srcWrite .outpOn,
         Event.emitCurrentSipm 0, Event.matWrite (.closeSipm 0),
         Event.matWrite (.openSipm 0), Event.srcWrite (.setSourVolt 0),
         Event.srcWrite .outpOff, Event.emitAllFinished], true⟩) ∧
    totalSamples
      (RunOut.events ⟨[Event.srcWrite (.setProt 105),
         Event.matWrite .connectBias, Event.srcWrite .outpOn,
         Event.emitCurrentSipm 0, Event.matWrite (.closeSipm 0),
         Event.matWrite (.openSipm 0), Event.srcWrite (.setSourVolt 0),
         Event.srcWrite .outpOff, Event.emitAllFinished], true⟩) = 0 ∧
    RunOut.completed ⟨[Event.srcWrite (.setProt 105),
       Event.matWrite .connectBias, Event.srcWrite .outpOn,
       Event.emitCurrentSipm 0, Event.matWrite (.closeSipm 0),
       Event.matWrite (.openSipm 0), Event.srcWrite (.setSourVolt 0),
       Event.srcWrite .outpOff, Event.emitAllFinished], true⟩ = true ∧
    Event.emitAllFinished ∈
      (RunOut.events ⟨[Event.srcWrite (.setProt 105),
         Event.matWrite .connectBias, Event.srcWrite .outpOn,
         Event.emitCurrentSipm 0, Event.matWrite (.closeSipm 0),
         Event.matWrite (.openSipm 0), Event.srcWrite (.setSourVolt 0),
         Event.srcWrite .outpOff, Event.emitAllFinished], true⟩) :=
  run_starts_without_validation envZero cfgReversed [0] 0 _ rfl
    (by norm_num [cfgReversed, cfgBase])
    (by norm_num [cfgReversed, cfgBase])
    runThread_cfgReversed_single

/-! ## Claim C4: compliance trip with skip-on-compliance -/

theorem stepEvents_not_sample (cc : Bool) (v : ℚ) (c : ℕ) :
    ∀ e ∈ stepEvents cc v, isSampleFor c e = false := by
  intro e he
  unfold stepEvents at he
  rcases List.mem_append.1 he with hAB | hC
  · rcases List.mem_append.1 hAB with hA | hB
    · rcases List.mem_cons.1 hA with rfl | hA
      · rfl
      · rcases List.mem_cons.1 hA with rfl | hA
        · rfl
        · simp at hA
    · obtain ⟨i, _, rfl⟩ := List.mem_map.1 hB
      rfl
  · rcases cc with _ | _
    · simp at hC
    · simp at hC
      subst hC
      rfl

theorem isSampleFor_of_not_isSample {c : ℕ} {e : Event}
    (h : isSample e = false) : isSampleFor c e = false := by
  cases e <;> first | rfl | simp [isSample] at h

/-- Wait — side condition used below: `stepEvents` never contains the
sample event, so its `isSampleFor` count is 0. -/
theorem stepEvents_count_zero (cc : Bool) (v : ℚ) (c : ℕ) :
    (stepEvents cc v).countP (isSampleFor c) = 0 := by
  rw [List.countP_eq_zero]
  intro e he
  simp [stepEvents_not_sample cc v c e he]

/-- If channel `c`'s compliance trips at (1-based) step `k` of the profile
while the skip-on-compliance box is checked, the sampling loop emits exactly
`k - 1` samples, then responds with the 0 V write and a stabilization sleep
as its final two events, ends via `break` (not an early return), and has
polled the flag exactly `k - 1` times. -/
theorem measLoop_trip (env : Env) (c : ℕ) :
    ∀ (pts : List ℚ) (k i p : ℕ), 1 ≤ k → k ≤ pts.length →
      (∀ j, j < k - 1 → env.compliance c (i + j) = false) →
      env.compliance c (i + (k - 1)) = true →
      ∃ pre,
        (measLoop env true (fun _ => true) c i p pts).events =
          pre ++ [Event.srcWrite (.setSourVolt 0),
                  Event.sleep stabilization_time] ∧
        (measLoop env true (fun _ => true) c i p pts).events.countP
          (isSampleFor c) = k - 1 ∧
        (measLoop env true (fun _ => true) c i p pts).early = false ∧
        (measLoop env true (fun _ => true) c i p pts).polls = p + (k - 1)
  | [], k, i, p, hk1, hk2, _, _ => by
    simp at hk2
    omega
  | v :: rest, k, i, p, hk1, hk2, hno, htrip => by
    rcases Nat.lt_or_ge k 2 with hk | hk
    · have hkeq : k = 1 := by omega
      subst hkeq
      have hc : env.compliance c i = true := by simpa using htrip
      unfold measLoop
      rw [if_pos (by simp [hc])]
      refine ⟨stepEvents true v, rfl, ?_, rfl, by simp⟩
      simp [List.countP_append, stepEvents_count_zero, List.countP_cons,
        isSampleFor]
    · obtain ⟨m, rfl⟩ : ∃ m, k = m + 2 := ⟨k - 2, by omega⟩
      have hc : env.compliance c i = false := by
        have := hno 0 (by omega)
        simpa using this
      have hno' : ∀ j, j < (m + 1) - 1 → env.compliance c ((i + 1) + j) = false := by
        intro j hj
        have := hno (j + 1) (by omega)
        rwa [show i + (j + 1) = (i + 1) + j by omega] at this
      have htrip' : env.compliance c ((i + 1) + ((m + 1) - 1)) = true := by
        rwa [show (i + 1) + ((m + 1) - 1) = i + (m + 2 - 1) by omega]
      obtain ⟨pre', hdec, hcount, hearly, hpolls⟩ :=
        measLoop_trip env c rest (m + 1) (i + 1) (p + 1) (by omega)
          (by simpa using hk2) hno' htrip'
      unfold measLoop
      rw [if_neg (by simp [hc]), if_pos rfl]
      refine ⟨(stepEvents true v ++
        [Event.samplePut c v (qMean (readings env c i))
          (qVar (readings env c i))]) ++ pre', ?_, ?_, ?_, ?_⟩
      · show (stepEvents true v ++
            [Event.samplePut c v (qMean (readings env c i))
              (qVar (readings env c i))]) ++
            (measLoop env true (fun _ => true) c (i + 1) (p + 1) rest).events =
          ((stepEvents true v ++
            [Event.samplePut c v (qMean (readings env c i))
              (qVar (readings env c i))]) ++ pre') ++
          [Event.srcWrite (.setSourVolt 0), Event.sleep stabilization_time]
        rw [hdec]
        simp [List.append_assoc]
      · show ((stepEvents true v ++
            [Event.samplePut c v (qMean (readings env c i))
              (qVar (readings env c i))]) ++
            (measLoop env true (fun _ => true) c (i + 1) (p + 1) rest).events).countP
            (isSampleFor c) = m + 2 - 1
        simp [List.countP_append, hcount, stepEvents_count_zero,
          List.countP_cons, isSampleFor]
      · show (measLoop env true (fun _ => true) c (i + 1) (p + 1) rest).early =
          false
        exact hearly
      · show (measLoop env true (fun _ => true) c (i + 1) (p + 1) rest).polls =
          p + (m + 2 - 1)
        rw [hpolls]
        omega

/-- C4 (confirmed).  If channel `c`'s compliance trips at (1-based) step `k`
of the profile while `skipOnCompliance` (`check_compliance`) is set and a
further channel `c'` follows, then the whole run emits exactly `k - 1`
samples for channel `c` (the tripping step's readings are discarded), the
trace contains the 0 V write immediately followed by the stabilization
sleep, channel `c` is disconnected (its open-path command is present), the
run proceeds to connect the next channel `c'`, and the run still completes
— the trip is not run-fatal. -/
theorem compliance_trip_skips_channel (env : Env) (cfg : RunCfg)
    (hcc : cfg.check_compliance = true)
    (c c' : ℕ) (rest : List ℕ) (k fuel : ℕ) (out : RunOut)
    (hk1 : 1 ≤ k) (hk2 : k ≤ (voltagePoints cfg).length)
    (hno : ∀ j, j < k - 1 → env.compliance c j = false)
    (htrip : env.compliance c (k - 1) = true)
    (hnotin : c ∉ c' :: rest)
    (h : runThread env cfg (c :: c' :: rest) (fun _ => true) fuel = some out) :
    sampleCount c out.events = k - 1 ∧
    (∃ pre post, out.events =
      pre ++ [Event.srcWrite (.setSourVolt 0),
              Event.sleep stabilization_time] ++ post) ∧
    Event.matWrite (.openSipm c) ∈ out.events ∧
    Event.emitCurrentSipm c' ∈ out.events ∧
    out.completed = true := by
  obtain ⟨startRamp, lo, hlo, hrampShape, hevents, hcompleted⟩ :=
    runThread_decomp h
  obtain ⟨hearly, _⟩ := channelLoop_flagTrue hlo
  have hcomp : out.completed = true := by rw [hcompleted, hearly]; rfl
  unfold channelLoop at hlo
  cases hpm : performMeasurement env cfg (fun _ => true) c
      (voltagePoints cfg) 0 fuel with
  | none => rw [hpm] at hlo; cases hlo
  | some pm =>
    rw [hpm] at hlo
    simp only [Option.some_bind, if_true] at hlo
    cases hrec : channelLoop env cfg (fun _ => true) fuel (c' :: rest)
        (pm.polls + 1) with
    | none => rw [hrec] at hlo; cases hlo
    | some out' =>
      rw [hrec] at hlo
      simp only [Option.map_some', Option.some.injEq] at hlo
      obtain ⟨hrecEarly, hrecSeq⟩ := channelLoop_flagTrue hrec
      obtain ⟨hpmEarly, ramp, hrampShape2, hpmEvents⟩ :=
        performMeasurement_flagTrue_decomp hpm
      have hml := measLoop_trip env c (voltagePoints cfg) k 0 0 hk1 hk2
        (by intro j hj; simpa using hno j hj) (by simpa using htrip)
      obtain ⟨pre0, hdec0, hcount0, _, _⟩ := hml
      rw [hcc] at hpmEvents
      have hloEv : lo.events = pm.events ++ out'.events := by
        rw [← hlo]
      have hloEarly : lo.early = out'.early := by rw [← hlo]
      -- sample counts of the surrounding fragments
      have hrampCount : startRamp.countP (isSampleFor c) = 0 := by
        rw [List.countP_eq_zero]
        intro e he
        simp [isSampleFor_of_not_isSample
          ((rampEvent_not_outpOff (hrampShape e he)).2.2.2)]
      have hrampCount2 : ramp.countP (isSampleFor c) = 0 := by
        rw [List.countP_eq_zero]
        intro e he
        simp [isSampleFor_of_not_isSample
          ((rampEvent_not_outpOff (hrampShape2 e he)).2.2.2)]
      have hrestCount : out'.events.countP (isSampleFor c) = 0 := by
        rw [List.countP_eq_zero]
        intro e he
        obtain ⟨c2, hc2mem, hc2⟩ := channelLoop_shape hrec e he
        intro hsample
        exact hnotin (chanEvent_sampleFor hc2 hsample ▸ hc2mem)
      refine ⟨?_, ?_, ?_, ?_, hcomp⟩
      · unfold sampleCount
        rw [hevents, hloEv, hpmEvents, hearly]
        simp only [List.countP_append]
        rw [hcount0]
        simp [hrampCount, hrampCount2, hrestCount, List.countP_cons,
          isSampleFor]
      · refine ⟨([Event.srcWrite (.setProt cfg.compliance),
          Event.matWrite .connectBias] ++ startRamp ++
          [Event.srcWrite .outpOn]) ++
          ([Event.emitCurrentSipm c, Event.matWrite (.closeSipm c)] ++ pre0),
          ([Event.matWrite (.openSipm c)] ++ ramp) ++ out'.events ++
          (if lo.early then []
           else [Event.srcWrite (.setSourVolt 0), Event.srcWrite .outpOff,
                 Event.emitAllFinished]), ?_⟩
        rw [hevents, hloEv, hpmEvents, hdec0]
        simp [List.append_assoc]
      · rw [hevents, hloEv, hpmEvents]
        simp
      · have hmem : Event.emitCurrentSipm c' ∈ out'.events := by
          have : c' ∈ currentSipmSeq out'.events := by
            rw [hrecSeq]
            exact List.mem_cons_self _ _
          obtain ⟨e, he, hproj⟩ := List.mem_filterMap.1 this
          cases e <;> simp [emitProj] at hproj
          cases hproj
          exact he
        rw [hevents, hloEv]
        simp only [List.mem_append]
        tauto

theorem arangeLen_cfgTrip : arangeLen 0 (3 + 1) 1 = 4 :=
  arangeLen_eq (by norm_num) 4 (by norm_num) (by norm_num)

theorem voltagePoints_cfgTrip : voltagePoints cfgTrip = [0, 1, 2, 3] := by
  simp [voltagePoints, cfgTrip, cfgBase, arange, arangeLen_cfgTrip,
    List.range_succ]

/-- Concrete evaluation of the compliance-trip run. -/
theorem runThread_cfgTrip :
    runThread envTrip cfgTrip [7, 9] (fun _ => true) 0 =
      some ⟨tripTrace, true⟩ := by
  simp [runThread, channelLoop, performMeasurement, measLoop, voltagePoints,
    arange, arangeLen_cfgTrip, cfgTrip, cfgBase, envTrip, tripTrace,
    readings, qMean, qVar, n_measurements, List.range_succ, stepEvents]

/-- Witness for C4: with channel 7 tripping at step 4 of the 4-point
profile and channel 9 following, the run emits exactly 3 samples for
channel 7, disconnects it, and connects channel 9. -/
theorem compliance_trip_witness :
    sampleCount 7 (RunOut.events ⟨tripTrace, true⟩) = 4 - 1 ∧
    Event.matWrite (.openSipm 7) ∈ RunOut.events ⟨tripTrace, true⟩ ∧
    Event.emitCurrentSipm 9 ∈ RunOut.events ⟨tripTrace, true⟩ := by
  have h := compliance_trip_skips_channel envTrip cfgTrip rfl 7 9 [] 4 0
    ⟨tripTrace, true⟩ (by norm_num)
    (by rw [voltagePoints_cfgTrip]; norm_num)
    (by intro j hj; interval_cases j <;> rfl)
    rfl (by decide) runThread_cfgTrip
  exact ⟨h.1, h.2.2.1, h.2.2.2.1⟩

/-! ## Claim C1: emergency stop -/

/-- C1 counterexample.  The claim asserts that `emergencyStop()` safes the
hardware "immediately and unconditionally, bypassing the cooperative
per-sample checkpoint rather than waiting for the in-flight measurement to
observe the cancellation flag".  In the source (lines 718-724) the first
statement of `emergency_stop` is `self.data_thread.stop()` — which sets the
flag and then BLOCKS in `self.wait()` until the worker has observed the
flag at a cooperative checkpoint and returned — and only after that join
are `OUTP OFF` and `Y2E0RX` written: in the action sequence the join
strictly precedes both hardware commands. -/
theorem emergency_stop_waits_cx :
    emergency_stop_actions =
      [MainAction.setRunningFalse, MainAction.joinThread,
       MainAction.srcCmd .outpOff, MainAction.matCmd .resetAll,
       MainAction.stopLedTimers] ∧
    emergency_stop_actions.indexOf MainAction.joinThread <
      emergency_stop_actions.indexOf (MainAction.srcCmd .outpOff) ∧
    emergency_stop_actions.indexOf MainAction.joinThread <
      emergency_stop_actions.indexOf (MainAction.matCmd .resetAll) := by
  refine ⟨rfl, ?_, ?_⟩ <;> decide

/-- C1 (amended).  When `emergencyStop()` is called while the worker is in
a channel's sampling loop (the run does not complete: `completed = false`),
the system trace is the worker's full remaining trace — the stop request is
observed only at the cooperative per-sample checkpoint, because `stop()`
joins the thread — followed by the two safing commands; `OUTP OFF` and the
matrix open-all command each occur exactly once in the whole system trace,
and no sample event follows the worker's drain (the part of the trace after
the call returns is exactly the two hardware commands). -/
theorem emergency_stop_safes_after_join (env : Env) (cfg : RunCfg)
    (chans : List ℕ) (K fuel : ℕ) (out : RunOut)
    (h : runThread env cfg chans (fun i => decide (i < K)) fuel = some out)
    (hearly : out.completed = false) :
    emergencySysTrace out = out.events ++
      [Event.srcWrite .outpOff, Event.matWrite .resetAll] ∧
    (emergencySysTrace out).countP isOutpOff = 1 ∧
    (emergencySysTrace out).countP isResetAll = 1 ∧
    totalSamples ((emergencySysTrace out).drop out.events.length) = 0 := by
  obtain ⟨hoff, hreset⟩ := runThread_counts h
  rw [hearly] at hoff
  refine ⟨rfl, ?_, ?_, ?_⟩
  · unfold emergencySysTrace emergencyHwEvents
    rw [List.countP_append, hoff]
    rfl
  · unfold emergencySysTrace emergencyHwEvents
    rw [List.countP_append, hreset]
    rfl
  · unfold emergencySysTrace emergencyHwEvents
    rw [List.drop_left]
    rfl

theorem arangeLen_cfgBase : arangeLen 0 (1 + 1) 1 = 2 :=
  arangeLen_eq (by norm_num) 2 (by norm_num) (by norm_num)

/-- Concrete evaluation of the interrupted run behind the C1 witness:
a stop request lands during channel 3's sampling loop (poll 1 reads
false), so the worker drains the in-flight step and returns early. -/
theorem runThread_cfgBase_stop :
    runThread envZero cfgBase [3] (fun i => decide (i < 1)) 0 =
      some ⟨stopTrace, false⟩ := by
  simp [runThread, channelLoop, performMeasurement, measLoop, voltagePoints,
    arange, arangeLen_cfgBase, cfgBase, envZero, stopTrace, readings, qMean,
    qVar, n_measurements, List.range_succ, stepEvents]

/-- Witness for the amended C1 at a concrete interrupted run. -/
theorem emergency_stop_witness :
    (emergencySysTrace ⟨stopTrace, false⟩).countP isOutpOff = 1 ∧
    (emergencySysTrace ⟨stopTrace, false⟩).countP isResetAll = 1 ∧
    totalSamples ((emergencySysTrace ⟨stopTrace, false⟩).drop
      (RunOut.events ⟨stopTrace, false⟩).length) = 0 := by
  have h := emergency_stop_safes_after_join envZero cfgBase [3] 1 0
    ⟨stopTrace, false⟩ runThread_cfgBase_stop rfl
  exact ⟨h.2.1, h.2.2.1, h.2.2.2⟩

end CTA
